import Mathlib

/-!
Verification of the neutral-cost cost-calculation and pricing-reconciliation
core, shallowly embedded from the TypeScript sources (src/shared.ts,
src/component/pricing.ts, src/component/aiCosts.ts, the tool-cost action and
the markup store).

Modelling conventions:
* JavaScript numbers are modelled as rationals (ℚ).  `Math.round x` in
  JavaScript rounds half toward positive infinity, i.e. `⌊x + 1/2⌋`, which is
  what `jsRound` computes.
* Optional fields become `Option`; JavaScript truthiness of an optional
  number (`undefined` and `0` are falsy) and of an optional string
  (`undefined` and `""` are falsy) is made explicit by `optNumTruthy` and
  `optStrTruthy`.
* `Record<string, number>` values are modelled as association lists looked up
  with `List.find?`.
* Functions that `throw` are modelled in `Except String`.
-/

namespace NeutralCost

/-- `$ per million tokens` divisor, `MILLION` in shared.ts. -/
def MILLION : ℚ := 1000000

/-- JavaScript `Math.round`: round half toward positive infinity. -/
def jsRound (x : ℚ) : ℚ := ((⌊x + (1 : ℚ)/2⌋ : ℤ) : ℚ)

/-- `round8` from shared.ts: `Math.round(value * 1e8) / 1e8`. -/
def round8 (value : ℚ) : ℚ := jsRound (value * 100000000) / 100000000

/-- JavaScript truthiness of an optional number (`undefined` and `0` falsy). -/
def optNumTruthy (o : Option ℚ) : Bool :=
  match o with
  | none => false
  | some x => decide (x ≠ 0)

/-- JavaScript truthiness of an optional string (`undefined` and `""` falsy). -/
def optStrTruthy (o : Option String) : Bool :=
  match o with
  | none => false
  | some s => decide (s ≠ "")

/-- Lookup in an optional `Record<string, number>`. -/
def recordLookup (m : Option (List (String × ℚ))) (k : String) : Option ℚ :=
  m.bind (fun l => (l.find? (fun p => p.1 == k)).map (fun p => p.2))

/-- A rational with denominator dividing `1e8`, i.e. a possible output of
`round8`. -/
def Fix8 (x : ℚ) : Prop := ∃ n : ℤ, x = (n : ℚ) / 100000000

theorem fix8_round8 (x : ℚ) : Fix8 (round8 x) := ⟨⌊x * 100000000 + (1 : ℚ)/2⌋, rfl⟩

theorem fix8_zero : Fix8 0 := ⟨0, by norm_num⟩

theorem fix8_add {x y : ℚ} (hx : Fix8 x) (hy : Fix8 y) : Fix8 (x + y) := by
  obtain ⟨n, hn⟩ := hx
  obtain ⟨m, hm⟩ := hy
  exact ⟨n + m, by rw [hn, hm]; push_cast; ring⟩

theorem round8_fix {x : ℚ} (hx : Fix8 x) : round8 x = x := by
  obtain ⟨n, hn⟩ := hx
  have h8 : ((100000000 : ℚ)) ≠ 0 := by norm_num
  subst hn
  unfold round8 jsRound
  rw [div_mul_cancel₀ _ h8]
  rw [Int.floor_int_add]
  norm_num

/-- `round8` is idempotent. -/
theorem round8_idem (x : ℚ) : round8 (round8 x) = round8 x :=
  round8_fix (fix8_round8 x)

/-! ### AI model usage / pricing (validators.ts `vUsage`, `vPricing`) -/

/-- Token usage from an AI response (`vUsage`). -/
structure Usage where
  promptTokens : ℚ
  completionTokens : ℚ
  totalTokens : ℚ
  reasoningTokens : Option ℚ
  cachedInputTokens : Option ℚ
deriving DecidableEq

/-- Per-million token rates (`vPricingData`). -/
structure PricingData where
  input : ℚ
  output : ℚ
  reasoning : Option ℚ
  cache_read : Option ℚ
  cache_write : Option ℚ
deriving DecidableEq

/-- Context/output limits (`vLimits`). -/
structure Limits where
  context : ℚ
  output : ℚ
deriving DecidableEq

/-- AI model pricing catalog record (`vPricing`). -/
structure Pricing where
  providerId : String
  providerName : String
  modelId : String
  modelName : String
  pricing : PricingData
  limits : Limits
  lastUpdated : ℚ
deriving DecidableEq

/-- `CalculatedCosts` from client/types.ts. -/
structure CalculatedCosts where
  promptTokensCost : ℚ
  completionTokensCost : ℚ
  reasoningTokensCost : ℚ
  cachedInputTokensCost : ℚ
  totalCost : ℚ
deriving DecidableEq

/-- Unrounded prompt-token cost inside `calculateCosts`
    (`(usage.promptTokens || 0) / MILLION * (prices.input || 0)`; on a number
    that is present, `|| 0` is the identity in the rational model). -/
def rawPromptCost (usage : Usage) (pricing : Pricing) : ℚ :=
  (usage.promptTokens / MILLION) * pricing.pricing.input

/-- Unrounded completion-token cost inside `calculateCosts`. -/
def rawCompletionCost (usage : Usage) (pricing : Pricing) : ℚ :=
  (usage.completionTokens / MILLION) * pricing.pricing.output

/-- Unrounded reasoning-token cost; a missing reasoning rate falls back to the
    output rate (`prices.reasoning ?? prices.output ?? 0`, with `output`
    always present). -/
def rawReasoningCost (usage : Usage) (pricing : Pricing) : ℚ :=
  (usage.reasoningTokens.getD 0 / MILLION) *
    (pricing.pricing.reasoning.getD pricing.pricing.output)

/-- Unrounded cached-input-token cost; a missing cache-read rate falls back to
    a quarter of the input rate. -/
def rawCachedInputCost (usage : Usage) (pricing : Pricing) : ℚ :=
  (usage.cachedInputTokens.getD 0 / MILLION) *
    (pricing.pricing.cache_read.getD (pricing.pricing.input * (25/100)))

/-- `calculateCosts` from shared.ts: per-field costs and the total, each
    rounded at the end; the total is the rounding of the sum of the
    *unrounded* per-field costs. -/
def calculateCosts (usage : Usage) (pricing : Pricing) : CalculatedCosts :=
  let promptTokensCost := rawPromptCost usage pricing
  let completionTokensCost := rawCompletionCost usage pricing
  let reasoningTokensCost := rawReasoningCost usage pricing
  let cachedInputTokensCost := rawCachedInputCost usage pricing
  let totalCost :=
    promptTokensCost + completionTokensCost + reasoningTokensCost +
      cachedInputTokensCost
  { promptTokensCost := round8 promptTokensCost
    completionTokensCost := round8 completionTokensCost
    reasoningTokensCost := round8 reasoningTokensCost
    cachedInputTokensCost := round8 cachedInputTokensCost
    totalCost := round8 totalCost }

/-- `calculateUserCosts` from shared.ts: multiply every field by the markup
    multiplier and round. -/
def calculateUserCosts (costs : CalculatedCosts) (markupMultiplier : ℚ) :
    CalculatedCosts :=
  { promptTokensCost := round8 (costs.promptTokensCost * markupMultiplier)
    completionTokensCost := round8 (costs.completionTokensCost * markupMultiplier)
    reasoningTokensCost := round8 (costs.reasoningTokensCost * markupMultiplier)
    cachedInputTokensCost := round8 (costs.cachedInputTokensCost * markupMultiplier)
    totalCost := round8 (costs.totalCost * markupMultiplier) }

/-! ### Tool usage / pricing (validators.ts `vToolUsage`, `vToolPricing`) -/

/-- A component of composite usage. -/
structure UsageComponent where
  name : String
  quantity : ℚ
  unitType : String
  cost : Option ℚ
deriving DecidableEq

/-- `vToolUsage`: ten-way tagged union of usage records.  The opaque
    `v.any()` payload of the custom kind is modelled as a `String`. -/
inductive ToolUsage where
  | credits (credits : ℚ) (creditType : Option String)
  | tokens (inputTokens outputTokens : ℚ)
      (reasoningTokens cacheReadTokens cacheWriteTokens : Option ℚ)
  | requests (requests : ℚ) (requestType : Option String)
  | compute (durationMs : ℚ) (computeType tier : Option String)
  | storage (bytes : ℚ) (durationSeconds : Option ℚ) (storageClass : Option String)
  | bandwidth (bytesIn bytesOut : Option ℚ) (region : Option String)
  | units (units : ℚ) (unitType : String)
  | tiered (quantity : ℚ) (tierName : Option String) (unitType : String)
  | composite (components : List UsageComponent)
  | custom (data : String) (description : Option String)
deriving DecidableEq

/-- One volume tier of tiered pricing; `tierFrom`/`tierTo` are the source's
    `from`/`to` fields (`to` absent means unbounded). -/
structure Tier where
  tierFrom : ℚ
  tierTo : Option ℚ
  rate : ℚ
deriving DecidableEq

/-- A component of composite pricing. -/
structure PricingComponent where
  name : String
  costPerUnit : ℚ
  unitType : String
deriving DecidableEq

/-- `vToolPricing`: ten-way tagged union of pricing policies mirroring
    `ToolUsage`; every variant carries a currency code. -/
inductive ToolPricing where
  | credits (costPerCredit : ℚ) (currency : String)
      (creditTypes : Option (List (String × ℚ)))
  | tokens (input output : ℚ) (reasoning cache_read cache_write : Option ℚ)
      (currency : String)
  | requests (costPerRequest : ℚ) (currency : String)
      (requestTypes : Option (List (String × ℚ)))
  | compute (costPerMs : ℚ) (currency : String)
      (computeTypes tiers : Option (List (String × ℚ)))
  | storage (costPerByteSecond : ℚ) (currency : String)
      (storageClasses : Option (List (String × ℚ)))
  | bandwidth (costPerByteIn costPerByteOut : Option ℚ) (currency : String)
      (regions : Option (List (String × ℚ)))
  | units (costPerUnit : ℚ) (unitType : String) (currency : String)
  | tiered (tiers : List Tier) (unitType : String) (currency : String)
  | composite (components : List PricingComponent) (currency : String)
  | custom (data : String) (currency : String) (description : Option String)
deriving DecidableEq

/-- The discriminant string of a usage record (`usage.type`). -/
def ToolUsage.typeTag : ToolUsage → String
  | .credits _ _ => "credits"
  | .tokens _ _ _ _ _ => "tokens"
  | .requests _ _ => "requests"
  | .compute _ _ _ => "compute"
  | .storage _ _ _ => "storage"
  | .bandwidth _ _ _ => "bandwidth"
  | .units _ _ => "units"
  | .tiered _ _ _ => "tiered"
  | .composite _ => "composite"
  | .custom _ _ => "custom"

/-- The discriminant string of a pricing policy (`pricing.type`). -/
def ToolPricing.typeTag : ToolPricing → String
  | .credits _ _ _ => "credits"
  | .tokens _ _ _ _ _ _ => "tokens"
  | .requests _ _ _ => "requests"
  | .compute _ _ _ _ => "compute"
  | .storage _ _ _ => "storage"
  | .bandwidth _ _ _ _ => "bandwidth"
  | .units _ _ _ => "units"
  | .tiered _ _ _ => "tiered"
  | .composite _ _ => "composite"
  | .custom _ _ _ => "custom"

/-- The currency carried by a pricing policy (`pricing.currency`). -/
def ToolPricing.currency : ToolPricing → String
  | .credits _ c _ => c
  | .tokens _ _ _ _ _ c => c
  | .requests _ c _ => c
  | .compute _ c _ _ => c
  | .storage _ c _ => c
  | .bandwidth _ _ c _ => c
  | .units _ _ c => c
  | .tiered _ _ c => c
  | .composite _ c => c
  | .custom _ c _ => c

/-- One entry of a composite cost breakdown. -/
structure ComponentCost where
  name : String
  quantity : ℚ
  unitCost : ℚ
  totalCost : ℚ
deriving DecidableEq

/-- The tagged cost breakdown (`vToolCost.breakdown`). -/
inductive Breakdown where
  | credits (credits costPerCredit : ℚ)
  | tokens (inputTokensCost outputTokensCost : ℚ)
      (reasoningTokensCost cacheReadTokensCost cacheWriteTokensCost : Option ℚ)
  | requests (requests costPerRequest : ℚ)
  | compute (durationMs costPerMs : ℚ) (computeType : Option String)
  | storage (bytes durationSeconds costPerByteSecond : ℚ)
  | bandwidth (bytesInCost bytesOutCost : Option ℚ)
  | units (units : ℚ) (unitType : String) (costPerUnit : ℚ)
  | tiered (quantity : ℚ) (tierApplied : String) (effectiveRate : ℚ)
  | composite (components : List ComponentCost)
  | custom (data : String)
deriving DecidableEq

/-- `vToolCost`: raw cost before markup. -/
structure ToolCost where
  amount : ℚ
  currency : String
  breakdown : Breakdown
deriving DecidableEq

/-- `vToolCostForUser`: user-facing cost with optional markup annotation. -/
structure ToolCostForUser where
  amount : ℚ
  currency : String
  markupMultiplier : Option ℚ
  breakdown : Breakdown
deriving DecidableEq

/-- `CalculatedToolCost` from shared.ts. -/
structure CalculatedToolCost where
  cost : ToolCost
  costForUser : ToolCostForUser
deriving DecidableEq

/-- The single-quote character, used when rendering kind-mismatch messages. -/
def quoteChar : String := String.singleton (Char.ofNat 39)

/-- Wrap a string in single quotes. -/
def quoted (s : String) : String := quoteChar ++ s ++ quoteChar

/-- The kind-mismatch error message thrown by `calculateToolCost`:
    `Usage type 'u' requires pricing type 'u', got 'p'`. -/
def kindMismatchMsg (usageKind pricingKind : String) : String :=
  "Usage type " ++ quoted usageKind ++ " requires pricing type " ++
    quoted usageKind ++ ", got " ++ quoted pricingKind

/-- The tier-selection condition of the tiered branch:
    `usage.quantity >= tier.from && (tier.to === undefined || usage.quantity <= tier.to)`. -/
def tierMatch (quantity : ℚ) (t : Tier) : Bool :=
  decide (t.tierFrom ≤ quantity) &&
    (match t.tierTo with
     | none => true
     | some hi => decide (quantity ≤ hi))

/-- The `for (const tier of pricing.tiers)` loop of the tiered branch: the
    first tier satisfying `tierMatch`, if any. -/
def findTier (quantity : ℚ) : List Tier → Option Tier
  | [] => none
  | t :: ts => if tierMatch quantity t then some t else findTier quantity ts

/-- Rendering of a tier's range for `tierApplied`
    (`"${tier.from}-${tier.to ?? "∞"}"`; JavaScript decimal formatting of a
    number is abstracted by `ℚ`'s `toString`). -/
def tierLabel (t : Tier) : String :=
  toString t.tierFrom ++ "-" ++ ((t.tierTo.map toString).getD "∞")

/-- The `switch (usage.type)` of `calculateToolCost`: per-kind `amount` and
    `breakdown`, or the kind-mismatch error.  Shared tail (markup application)
    is in `calculateToolCost`. -/
def computeAmountBreakdown (usage : ToolUsage) (pricing : ToolPricing) :
    Except String (ℚ × Breakdown) :=
  match usage with
  | .credits credits creditType =>
    match pricing with
    | .credits costPerCredit _ creditTypes =>
      let looked :=
        match creditType with
        | some ct => recordLookup creditTypes ct
        | none => none
      let rate :=
        if optStrTruthy creditType && optNumTruthy looked then looked.getD 0
        else costPerCredit
      .ok (round8 (credits * rate), .credits credits rate)
    | _ => .error (kindMismatchMsg "credits" pricing.typeTag)
  | .tokens inputTokens outputTokens reasoningTokens cacheReadTokens cacheWriteTokens =>
    match pricing with
    | .tokens input output reasoning cache_read cache_write _ =>
      let inputCost := round8 ((inputTokens / MILLION) * input)
      let outputCost := round8 ((outputTokens / MILLION) * output)
      let reasoningCost :=
        if optNumTruthy reasoningTokens then
          some (round8 ((reasoningTokens.getD 0 / MILLION) * (reasoning.getD output)))
        else none
      let cacheReadCost :=
        if optNumTruthy cacheReadTokens then
          some (round8 ((cacheReadTokens.getD 0 / MILLION) *
            (cache_read.getD (input * (25/100)))))
        else none
      let cacheWriteCost :=
        if optNumTruthy cacheWriteTokens then
          some (round8 ((cacheWriteTokens.getD 0 / MILLION) * (cache_write.getD output)))
        else none
      let amount := round8 (inputCost + outputCost + reasoningCost.getD 0 +
        cacheReadCost.getD 0 + cacheWriteCost.getD 0)
      .ok (amount, .tokens inputCost outputCost reasoningCost cacheReadCost cacheWriteCost)
    | _ => .error (kindMismatchMsg "tokens" pricing.typeTag)
  | .requests requests requestType =>
    match pricing with
    | .requests costPerRequest _ requestTypes =>
      let looked :=
        match requestType with
        | some rt => recordLookup requestTypes rt
        | none => none
      let rate :=
        if optStrTruthy requestType && optNumTruthy looked then looked.getD 0
        else costPerRequest
      .ok (round8 (requests * rate), .requests requests rate)
    | _ => .error (kindMismatchMsg "requests" pricing.typeTag)
  | .compute durationMs computeType tier =>
    match pricing with
    | .compute costPerMs _ computeTypes tiers =>
      let ctLooked :=
        match computeType with
        | some ct => recordLookup computeTypes ct
        | none => none
      let rate1 :=
        if optStrTruthy computeType && optNumTruthy ctLooked then ctLooked.getD 0
        else costPerMs
      let tLooked :=
        match tier with
        | some t => recordLookup tiers t
        | none => none
      let rate :=
        if optStrTruthy tier && optNumTruthy tLooked then rate1 * tLooked.getD 0
        else rate1
      .ok (round8 (durationMs * rate), .compute durationMs rate computeType)
    | _ => .error (kindMismatchMsg "compute" pricing.typeTag)
  | .storage bytes durationSeconds storageClass =>
    match pricing with
    | .storage costPerByteSecond _ storageClasses =>
      let scLooked :=
        match storageClass with
        | some sc => recordLookup storageClasses sc
        | none => none
      let rate :=
        if optStrTruthy storageClass && optNumTruthy scLooked then scLooked.getD 0
        else costPerByteSecond
      let ds := durationSeconds.getD 1
      .ok (round8 (bytes * ds * rate), .storage bytes ds rate)
    | _ => .error (kindMismatchMsg "storage" pricing.typeTag)
  | .bandwidth bytesIn bytesOut region =>
    match pricing with
    | .bandwidth costPerByteIn costPerByteOut _ regions =>
      let rLooked :=
        match region with
        | some r => recordLookup regions r
        | none => none
      let regionMultiplier :=
        if optStrTruthy region && optNumTruthy rLooked then rLooked.getD 0 else 1
      let bytesInCost :=
        if optNumTruthy bytesIn then
          some (round8 (bytesIn.getD 0 * costPerByteIn.getD 0 * regionMultiplier))
        else none
      let bytesOutCost :=
        if optNumTruthy bytesOut then
          some (round8 (bytesOut.getD 0 * costPerByteOut.getD 0 * regionMultiplier))
        else none
      .ok (round8 (bytesInCost.getD 0 + bytesOutCost.getD 0),
        .bandwidth bytesInCost bytesOutCost)
    | _ => .error (kindMismatchMsg "bandwidth" pricing.typeTag)
  | .units units unitType =>
    match pricing with
    | .units costPerUnit _ _ =>
      .ok (round8 (units * costPerUnit), .units units unitType costPerUnit)
    | _ => .error (kindMismatchMsg "units" pricing.typeTag)
  | .tiered quantity _ _ =>
    match pricing with
    | .tiered tiers _ _ =>
      let selected := findTier quantity tiers
      let effectiveRate := (selected.map Tier.rate).getD 0
      let tierApplied := (selected.map tierLabel).getD "default"
      .ok (round8 (quantity * effectiveRate),
        .tiered quantity tierApplied effectiveRate)
    | _ => .error (kindMismatchMsg "tiered" pricing.typeTag)
  | .composite components =>
    match pricing with
    | .composite pcomponents _ =>
      let componentCosts := components.map (fun uc =>
        let pc := pcomponents.find? (fun p => p.name == uc.name)
        let unitCost := (pc.map PricingComponent.costPerUnit).getD 0
        ({ name := uc.name, quantity := uc.quantity, unitCost := unitCost,
           totalCost := round8 (uc.quantity * unitCost) } : ComponentCost))
      let amount := round8 (componentCosts.foldl (fun sum c => sum + c.totalCost) 0)
      .ok (amount, .composite componentCosts)
    | _ => .error (kindMismatchMsg "composite" pricing.typeTag)
  | .custom data _ =>
    match pricing with
    | .custom _ _ _ => .ok (0, .custom data)
    | _ => .error (kindMismatchMsg "custom" pricing.typeTag)

/-- `calculateToolCost` from shared.ts: dispatch on the usage kind, then apply
    the markup multiplier to produce the user-facing cost.  A kind mismatch is
    a hard error. -/
def calculateToolCost (usage : ToolUsage) (pricing : ToolPricing)
    (markupMultiplier : ℚ) : Except String CalculatedToolCost :=
  match computeAmountBreakdown usage pricing with
  | .error e => .error e
  | .ok (amount, breakdown) =>
    let userAmount :=
      if markupMultiplier ≠ 1 then round8 (amount * markupMultiplier) else amount
    .ok
      { cost := { amount := amount, currency := pricing.currency, breakdown := breakdown }
        costForUser :=
          { amount := userAmount
            currency := pricing.currency
            markupMultiplier :=
              if markupMultiplier ≠ 1 then some markupMultiplier else none
            breakdown := breakdown } }

/-- The raw-cost amount of a calculation result, if it succeeded. -/
def costAmountOf (e : Except String CalculatedToolCost) : Option ℚ :=
  (e.toOption).map (fun r => r.cost.amount)

/-- The user-facing amount of a calculation result, if it succeeded. -/
def userAmountOf (e : Except String CalculatedToolCost) : Option ℚ :=
  (e.toOption).map (fun r => r.costForUser.amount)

/-- The raw-cost breakdown of a calculation result, if it succeeded. -/
def costBreakdownOf (e : Except String CalculatedToolCost) : Option Breakdown :=
  (e.toOption).map (fun r => r.cost.breakdown)

/-- The user-facing breakdown of a calculation result, if it succeeded. -/
def userBreakdownOf (e : Except String CalculatedToolCost) : Option Breakdown :=
  (e.toOption).map (fun r => r.costForUser.breakdown)

/-- The markup annotation of a successful calculation result. -/
def markupFieldOf (e : Except String CalculatedToolCost) : Option (Option ℚ) :=
  (e.toOption).map (fun r => r.costForUser.markupMultiplier)

/-! ### Helper lemmas -/

theorem round8_zero : round8 0 = 0 := round8_fix fix8_zero

theorem findTier_eq_find? (q : ℚ) (ts : List Tier) :
    findTier q ts = ts.find? (tierMatch q) := by
  induction ts with
  | nil => rfl
  | cons t ts ih =>
    unfold findTier
    rw [List.find?_cons]
    by_cases h : tierMatch q t
    · simp [h]
    · simp [h, ih]

theorem findTier_eq_none_of_no_match (q : ℚ) (ts : List Tier)
    (h : ∀ t ∈ ts, ¬ (t.tierFrom ≤ q ∧ (t.tierTo = none ∨ ∃ hi, t.tierTo = some hi ∧ q ≤ hi))) :
    findTier q ts = none := by
  induction ts with
  | nil => rfl
  | cons t ts ih =>
    unfold findTier
    have ht := h t (List.mem_cons_self t ts)
    have hmatch : tierMatch q t = false := by
      unfold tierMatch
      cases hto : t.tierTo with
      | none =>
        simp only [Bool.and_true]
        by_contra hc
        simp only [Bool.not_eq_false, decide_eq_true_eq] at hc
        exact ht ⟨hc, Or.inl hto⟩
      | some hi =>
        by_contra hc
        simp only [Bool.not_eq_false, Bool.and_eq_true, decide_eq_true_eq] at hc
        exact ht ⟨hc.1, Or.inr ⟨hi, hto, hc.2⟩⟩
    rw [hmatch]
    simp only [Bool.false_eq_true, if_false]
    exact ih (fun t' ht' => h t' (List.mem_cons_of_mem _ ht'))

/-! ### C1 and C2: kind matching and markup application -/

/-- C1: for every usage record and pricing policy whose kind tags differ,
`calculateToolCost` fails with the hard kind-mismatch error naming both the
usage kind and the pricing kind and produces no cost; when the kind tags
agree no kind-mismatch error is raised (the computation succeeds). -/
theorem calculateToolCost_kind_matching (u : ToolUsage) (p : ToolPricing) (m : ℚ) :
    (u.typeTag ≠ p.typeTag →
      calculateToolCost u p m = .error (kindMismatchMsg u.typeTag p.typeTag)) ∧
    (u.typeTag = p.typeTag → (calculateToolCost u p m).isOk = true) := by
  constructor
  · intro h
    cases u <;> cases p <;> first
      | rfl
      | (exact absurd rfl h)
  · intro h
    cases u <;> cases p <;> first
      | rfl
      | (exact absurd h (by simp [ToolUsage.typeTag, ToolPricing.typeTag]))

/-- Witness for C1 at concrete inputs: a credits/tokens pair fails with the
mismatch message; a credits/credits pair succeeds. -/
theorem calculateToolCost_kind_matching_witness :
    calculateToolCost (.credits 1 none) (.tokens 1 1 none none none "USD") 1 =
      .error (kindMismatchMsg "credits" "tokens") ∧
    (calculateToolCost (.credits 1 none) (.credits 2 "USD" none) 1).isOk = true :=
  ⟨(calculateToolCost_kind_matching (.credits 1 none)
      (.tokens 1 1 none none none "USD") 1).1 (by decide),
   (calculateToolCost_kind_matching (.credits 1 none)
      (.credits 2 "USD" none) 1).2 rfl⟩

/-- C2: for every matching usage/pricing pair, the user-facing amount equals
the raw amount when the markup multiplier is `1` and `round8 (amount * m)`
otherwise, and the `markupMultiplier` annotation is present exactly when the
multiplier differs from `1`. -/
theorem calculateToolCost_markup (u : ToolUsage) (p : ToolPricing) (m : ℚ)
    (r : CalculatedToolCost) (h : calculateToolCost u p m = .ok r) :
    (m = 1 → r.costForUser.amount = r.cost.amount ∧
      r.costForUser.markupMultiplier = none) ∧
    (m ≠ 1 → r.costForUser.amount = round8 (r.cost.amount * m) ∧
      r.costForUser.markupMultiplier = some m) := by
  unfold calculateToolCost at h
  rcases hcb : computeAmountBreakdown u p with e | ⟨a, b⟩ <;> rw [hcb] at h
  · exact Except.noConfusion h
  · simp only [] at h
    injection h with h
    subst h
    constructor
    · intro hm
      subst hm
      simp
    · intro hm
      simp [hm]

/-- Witness for C2: a concrete units calculation with multiplier `2`. -/
def c2usage : ToolUsage := .units 3 "pages"

/-- Concrete units pricing for the C2 witness. -/
def c2pricing : ToolPricing := .units 5 "pages" "USD"

/-- The concrete result of the C2 witness computation. -/
def c2result : CalculatedToolCost :=
  { cost := { amount := round8 (3 * 5), currency := "USD",
              breakdown := .units 3 "pages" 5 }
    costForUser := { amount := round8 (round8 (3 * 5) * 2), currency := "USD",
                     markupMultiplier := some 2,
                     breakdown := .units 3 "pages" 5 } }

theorem calculateToolCost_markup_witness :
    c2result.costForUser.amount = round8 (c2result.cost.amount * 2) ∧
    c2result.costForUser.markupMultiplier = some 2 :=
  (calculateToolCost_markup c2usage c2pricing 2 c2result
    (by norm_num [calculateToolCost, computeAmountBreakdown, ToolPricing.currency,
      c2usage, c2pricing, c2result])).2 (by norm_num)

/-! ### C8: token-based tool cost formula -/

theorem tokenTerm_getD (o : Option ℚ) (rate : ℚ) :
    (if optNumTruthy o then some (round8 ((o.getD 0 / MILLION) * rate))
     else none).getD 0
      = round8 ((o.getD 0 / MILLION) * rate) := by
  cases o with
  | none =>
    simp [optNumTruthy, round8_zero, MILLION]
  | some x =>
    by_cases hx : x = 0
    · subst hx
      simp [optNumTruthy, round8_zero, MILLION]
    · simp [optNumTruthy, hx]

/-- C8: for every tokens-kind usage/pricing pair the computed amount is the
sum over the five token fields of `round8 ((count / 1e6) * rate)`, with a
missing reasoning rate falling back to the output rate, a missing cache-read
rate to a quarter of the input rate, and a missing cache-write rate to the
output rate. -/
theorem calculateToolCost_tokens_amount (it ot : ℚ) (rt crt cwt : Option ℚ)
    (inR outR : ℚ) (rR cR cwR : Option ℚ) (cur : String) (m : ℚ) :
    costAmountOf (calculateToolCost (.tokens it ot rt crt cwt)
        (.tokens inR outR rR cR cwR cur) m)
      = some (round8 ((it / MILLION) * inR) + round8 ((ot / MILLION) * outR)
          + round8 ((rt.getD 0 / MILLION) * rR.getD outR)
          + round8 ((crt.getD 0 / MILLION) * cR.getD (inR * (25/100)))
          + round8 ((cwt.getD 0 / MILLION) * cwR.getD outR)) := by
  unfold costAmountOf calculateToolCost computeAmountBreakdown
  simp only [tokenTerm_getD]
  rw [round8_fix]
  · simp [Except.toOption]
  · exact fix8_add (fix8_add (fix8_add (fix8_add (fix8_round8 _) (fix8_round8 _))
      (fix8_round8 _)) (fix8_round8 _)) (fix8_round8 _)

/-! ### C10: tiered usage with no matching tier -/

/-- The effective rate recorded in a tiered breakdown, if the computation
succeeded with a tiered breakdown. -/
def effectiveRateOf (e : Except String CalculatedToolCost) : Option ℚ :=
  match costBreakdownOf e with
  | some (.tiered _ _ r) => some r
  | _ => none

/-- The tier label recorded in a tiered breakdown, if any. -/
def tierAppliedOf (e : Except String CalculatedToolCost) : Option String :=
  match costBreakdownOf e with
  | some (.tiered _ l _) => some l
  | _ => none

/-- C10: when no tier of a tiered pricing contains the usage quantity,
`calculateToolCost` does not fail: it returns amount `0` with effective rate
`0` and tier label `"default"`, and the user-facing amount is the markup of
that zero amount, i.e. `0`. -/
theorem calculateToolCost_tiered_default (q : ℚ) (tn : Option String)
    (ut ut2 cur : String) (ts : List Tier) (m : ℚ)
    (h : ∀ t ∈ ts, ¬ (t.tierFrom ≤ q ∧
      (t.tierTo = none ∨ ∃ hi, t.tierTo = some hi ∧ q ≤ hi))) :
    (calculateToolCost (.tiered q tn ut) (.tiered ts ut2 cur) m).isOk = true ∧
    costAmountOf (calculateToolCost (.tiered q tn ut) (.tiered ts ut2 cur) m) = some 0 ∧
    effectiveRateOf (calculateToolCost (.tiered q tn ut) (.tiered ts ut2 cur) m) = some 0 ∧
    tierAppliedOf (calculateToolCost (.tiered q tn ut) (.tiered ts ut2 cur) m)
      = some "default" ∧
    userAmountOf (calculateToolCost (.tiered q tn ut) (.tiered ts ut2 cur) m) = some 0 := by
  have hft := findTier_eq_none_of_no_match q ts h
  have hamount : round8 (q * 0) = 0 := by rw [mul_zero, round8_zero]
  simp only [calculateToolCost, computeAmountBreakdown, hft,
    Option.map_none, Option.getD_none, hamount, mul_zero, round8_zero]
  refine ⟨rfl, ?_, ?_, ?_, ?_⟩
  · simp [costAmountOf, Except.toOption, round8_zero]
  · simp [effectiveRateOf, costBreakdownOf, Except.toOption, round8_zero]
  · simp [tierAppliedOf, costBreakdownOf, Except.toOption, round8_zero]
  · by_cases hm : m = 1
    · subst hm
      simp [userAmountOf, Except.toOption, round8_zero]
    · simp [userAmountOf, Except.toOption, hm, round8_zero]

/-- Witness for C10: quantity `5` misses the single tier `[10, 20]`. -/
theorem calculateToolCost_tiered_default_witness :
    (calculateToolCost (.tiered 5 none "calls")
      (.tiered [⟨10, some 20, 7⟩] "calls" "USD") 3).isOk = true ∧
    costAmountOf (calculateToolCost (.tiered 5 none "calls")
      (.tiered [⟨10, some 20, 7⟩] "calls" "USD") 3) = some 0 ∧
    effectiveRateOf (calculateToolCost (.tiered 5 none "calls")
      (.tiered [⟨10, some 20, 7⟩] "calls" "USD") 3) = some 0 ∧
    tierAppliedOf (calculateToolCost (.tiered 5 none "calls")
      (.tiered [⟨10, some 20, 7⟩] "calls" "USD") 3) = some "default" ∧
    userAmountOf (calculateToolCost (.tiered 5 none "calls")
      (.tiered [⟨10, some 20, 7⟩] "calls" "USD") 3) = some 0 :=
  calculateToolCost_tiered_default 5 none "calls" "calls" "USD"
    [⟨10, some 20, 7⟩] 3 (by
      intro t ht
      rw [List.mem_singleton] at ht
      subst ht
      rintro ⟨hle, _⟩
      norm_num at hle)

/-! ### C3: tier selection uses closed ranges, not half-open ones -/

/-- C3 counterexample: with tiers `[0,100] @ 1` and `[100,∞) @ 1/2` and
quantity exactly `100`, the code selects the *first* tier (its upper bound is
inclusive), giving rate `1` and amount `100` — not the rate `1/2` and amount
`round8 (100 * (1/2)) = 50` that the half-open reading of the claim
predicts. -/
theorem tiered_boundary_counterexample :
    costAmountOf (calculateToolCost (.tiered 100 none "calls")
      (.tiered [⟨0, some 100, 1⟩, ⟨100, none, 1/2⟩] "calls" "USD") 1) = some 100 ∧
    costAmountOf (calculateToolCost (.tiered 100 none "calls")
      (.tiered [⟨0, some 100, 1⟩, ⟨100, none, 1/2⟩] "calls" "USD") 1)
      ≠ some (round8 (100 * (1/2))) ∧
    effectiveRateOf (calculateToolCost (.tiered 100 none "calls")
      (.tiered [⟨0, some 100, 1⟩, ⟨100, none, 1/2⟩] "calls" "USD") 1) = some 1 ∧
    effectiveRateOf (calculateToolCost (.tiered 100 none "calls")
      (.tiered [⟨0, some 100, 1⟩, ⟨100, none, 1/2⟩] "calls" "USD") 1) ≠ some (1/2) := by
  have hsel : findTier 100 [⟨0, some 100, 1⟩, ⟨100, none, (1:ℚ)/2⟩]
      = some ⟨0, some 100, 1⟩ := by
    unfold findTier tierMatch
    norm_num
  refine ⟨?_, ?_, ?_, ?_⟩ <;>
    simp only [costAmountOf, effectiveRateOf, costBreakdownOf, calculateToolCost,
      computeAmountBreakdown, hsel, Option.map_some, Option.getD_some,
      Except.toOption] <;>
    norm_num [round8, jsRound]

/-- C3 amended: tier selection takes the *first* tier of the caller-supplied
list whose closed range `[from, to]` contains the quantity (`to` absent means
unbounded above; a quantity exactly equal to `to` does fall in that tier);
the amount is `round8 (quantity * rate)` of the selected tier, `0` if none
matches. -/
theorem calculateToolCost_tiered_amended (q : ℚ) (tn : Option String)
    (ut ut2 cur : String) (ts : List Tier) (m : ℚ) :
    (∀ t, tierMatch q t = true ↔
      (t.tierFrom ≤ q ∧ ∀ hi, t.tierTo = some hi → q ≤ hi)) ∧
    findTier q ts = ts.find? (tierMatch q) ∧
    costAmountOf (calculateToolCost (.tiered q tn ut) (.tiered ts ut2 cur) m)
      = some (round8 (q * (((ts.find? (tierMatch q)).map Tier.rate).getD 0))) ∧
    effectiveRateOf (calculateToolCost (.tiered q tn ut) (.tiered ts ut2 cur) m)
      = some (((ts.find? (tierMatch q)).map Tier.rate).getD 0) := by
  refine ⟨?_, findTier_eq_find? q ts, ?_, ?_⟩
  · intro t
    unfold tierMatch
    cases hto : t.tierTo with
    | none => simp [hto]
    | some hi => simp [hto]
  · simp [costAmountOf, calculateToolCost, computeAmountBreakdown,
      findTier_eq_find?, Except.toOption]
  · simp [effectiveRateOf, costBreakdownOf, calculateToolCost,
      computeAmountBreakdown, findTier_eq_find?, Except.toOption]

/-! ### C4: rounding discipline of the token-based calculateCosts -/

/-- C4 counterexample: with two sub-costs of `0.5e-8` each, the rounded total
(`round8` of the unrounded sum, `1e-8`) is *not* the sum of the already
rounded per-field costs (`1e-8 + 1e-8 = 2e-8`): `calculateCosts` rounds the
per-field values only on output and totals the unrounded values. -/
theorem calculateCosts_total_counterexample :
    (calculateCosts ⟨1, 1, 2, none, none⟩
        ⟨"p", "P", "m", "M", ⟨1/200, 1/200, none, none, none⟩, ⟨0, 0⟩, 0⟩).totalCost
      ≠ (calculateCosts ⟨1, 1, 2, none, none⟩
          ⟨"p", "P", "m", "M", ⟨1/200, 1/200, none, none, none⟩, ⟨0, 0⟩, 0⟩).promptTokensCost
        + (calculateCosts ⟨1, 1, 2, none, none⟩
            ⟨"p", "P", "m", "M", ⟨1/200, 1/200, none, none, none⟩, ⟨0, 0⟩, 0⟩).completionTokensCost
        + (calculateCosts ⟨1, 1, 2, none, none⟩
            ⟨"p", "P", "m", "M", ⟨1/200, 1/200, none, none, none⟩, ⟨0, 0⟩, 0⟩).reasoningTokensCost
        + (calculateCosts ⟨1, 1, 2, none, none⟩
            ⟨"p", "P", "m", "M", ⟨1/200, 1/200, none, none, none⟩, ⟨0, 0⟩, 0⟩).cachedInputTokensCost := by
  norm_num [calculateCosts, rawPromptCost, rawCompletionCost, rawReasoningCost,
    rawCachedInputCost, MILLION, round8, jsRound]

/-- C4 amended: every monetary value produced by `calculateCosts` and
`calculateUserCosts` is rounded to 8 decimal places (a fixed point of
`round8`), each per-field cost being the `round8` of its unrounded value; the
total, however, is the `round8` of the sum of the *unrounded* per-field costs
(rounding of the sub-totals does not precede the summation, so the total can
differ from the sum of the rounded per-field costs). -/
theorem calculateCosts_rounding (u : Usage) (p : Pricing) (m : ℚ) :
    (calculateCosts u p).promptTokensCost = round8 (rawPromptCost u p) ∧
    (calculateCosts u p).completionTokensCost = round8 (rawCompletionCost u p) ∧
    (calculateCosts u p).reasoningTokensCost = round8 (rawReasoningCost u p) ∧
    (calculateCosts u p).cachedInputTokensCost = round8 (rawCachedInputCost u p) ∧
    (calculateCosts u p).totalCost = round8 (rawPromptCost u p +
      rawCompletionCost u p + rawReasoningCost u p + rawCachedInputCost u p) ∧
    round8 ((calculateCosts u p).totalCost) = (calculateCosts u p).totalCost ∧
    round8 ((calculateCosts u p).promptTokensCost) = (calculateCosts u p).promptTokensCost ∧
    round8 ((calculateUserCosts (calculateCosts u p) m).totalCost)
      = (calculateUserCosts (calculateCosts u p) m).totalCost :=
  ⟨rfl, rfl, rfl, rfl, rfl, round8_idem _, round8_idem _, round8_idem _⟩

theorem find?_congr {α : Type} {p q : α → Bool} (h : ∀ a, p a = q a)
    (l : List α) : l.find? p = l.find? q := by
  rw [show p = q from funext h]

/-! ### Markup resolution (shared.ts `getMarkupMultiplier` and the
markup-store query of the component) -/

/-- Provider-scoped markup rule (client/types.ts). -/
structure ProviderMarkupMultiplier where
  providerId : String
  markupMultiplier : ℚ
deriving DecidableEq

/-- Model-scoped markup rule (client/types.ts). -/
structure ModelMarkupMultiplier where
  providerId : String
  modelId : String
  markupMultiplier : ℚ
deriving DecidableEq

/-- Tool-scoped markup rule (client/types.ts). -/
structure ToolMarkupMultiplier where
  providerId : String
  toolId : String
  markupMultiplier : ℚ
deriving DecidableEq

/-- The `if (hit) return hit.markupMultiplier` pattern of both resolvers:
take the multiplier of a lookup hit, else fall through. -/
def hitValue {α : Type} (hit : Option α) (mult : α → ℚ) (next : ℚ) : ℚ :=
  match hit with
  | some x => mult x
  | none => next

theorem hitValue_congr {α β : Type} {h : Option α} {h' : Option β}
    {f : α → ℚ} {g : β → ℚ} {n n' : ℚ}
    (hh : h.map f = h'.map g) (hn : n = n') :
    hitValue h f n = hitValue h' g n' := by
  cases h <;> cases h' <;> simp_all [hitValue]

/-- The in-process markup resolver (shared.ts): model-scoped match first
(guarded by `if (modelId)`, so an absent or empty model id skips the step),
then tool-scoped, then provider-scoped, else `0`. -/
def getMarkupMultiplier (providerId : String) (modelId toolId : Option String)
    (providerMarkupMultipliers : List ProviderMarkupMultiplier)
    (modelMarkupMultipliers : List ModelMarkupMultiplier)
    (toolMarkupMultipliers : List ToolMarkupMultiplier) : ℚ :=
  hitValue
    (if optStrTruthy modelId then
      modelMarkupMultipliers.find? (fun m =>
        decide (m.providerId = providerId ∧ some m.modelId = modelId))
    else none) ModelMarkupMultiplier.markupMultiplier
    (hitValue
      (if optStrTruthy toolId then
        toolMarkupMultipliers.find? (fun t =>
          decide (t.providerId = providerId ∧ some t.toolId = toolId))
      else none) ToolMarkupMultiplier.markupMultiplier
      (hitValue
        (providerMarkupMultipliers.find? (fun p =>
          decide (p.providerId = providerId)))
        ProviderMarkupMultiplier.markupMultiplier 0))

/-- A persisted markup rule (`vMarkupMultiplierConfig`): a scope tag plus the
identifying ids; model rules carry `modelId`, tool rules `toolId`. -/
structure MarkupRule where
  scope : String
  providerId : String
  modelId : Option String
  toolId : Option String
  markupMultiplier : ℚ
deriving DecidableEq

/-- The store-backed markup resolver (the component's `getMarkupMultiplier`
query): the rule table is modelled as a list in index order and each indexed
`.first()` as `List.find?`. -/
def getMarkupMultiplierStore (rules : List MarkupRule) (providerId : String)
    (modelId toolId : Option String) : ℚ :=
  hitValue
    (if optStrTruthy modelId then
      rules.find? (fun r =>
        decide (r.providerId = providerId ∧ r.modelId = modelId))
    else none) MarkupRule.markupMultiplier
    (hitValue
      (if optStrTruthy toolId then
        rules.find? (fun r =>
          decide (r.providerId = providerId ∧ r.toolId = toolId))
      else none) MarkupRule.markupMultiplier
      (hitValue
        (rules.find? (fun r =>
          decide (r.scope = "provider" ∧ r.providerId = providerId)))
        MarkupRule.markupMultiplier 0))

/-- Projection of the rule store to provider-scoped rules (the component's
`getMarkupMultipliers` query). -/
def providerMultipliersOf (rules : List MarkupRule) : List ProviderMarkupMultiplier :=
  (rules.filter (fun r => r.scope == "provider")).map
    (fun r => { providerId := r.providerId, markupMultiplier := r.markupMultiplier })

/-- Projection of the rule store to model-scoped rules. -/
def modelMarkupMultipliersOf (rules : List MarkupRule) : List ModelMarkupMultiplier :=
  (rules.filter (fun r => r.scope == "model")).map
    (fun r => { providerId := r.providerId, modelId := r.modelId.getD "",
                markupMultiplier := r.markupMultiplier })

/-- Projection of the rule store to tool-scoped rules. -/
def toolMarkupMultipliersOf (rules : List MarkupRule) : List ToolMarkupMultiplier :=
  (rules.filter (fun r => r.scope == "tool")).map
    (fun r => { providerId := r.providerId, toolId := r.toolId.getD "",
                markupMultiplier := r.markupMultiplier })

/-- Specification-level cascade, following the claim's words: the first match
among model-scoped rules (when a model id is given), then tool-scoped rules
(when a tool id is given), then provider-scoped rules, else `0`. -/
def markupCascadeSpec (providerId : String) (modelId toolId : Option String)
    (pms : List ProviderMarkupMultiplier) (mms : List ModelMarkupMultiplier)
    (tms : List ToolMarkupMultiplier) : ℚ :=
  hitValue
    (modelId.bind (fun mid => mms.find? (fun m =>
      decide (m.providerId = providerId ∧ m.modelId = mid))))
    ModelMarkupMultiplier.markupMultiplier
    (hitValue
      (toolId.bind (fun tid => tms.find? (fun t =>
        decide (t.providerId = providerId ∧ t.toolId = tid))))
      ToolMarkupMultiplier.markupMultiplier
      (hitValue
        (pms.find? (fun p => decide (p.providerId = providerId)))
        ProviderMarkupMultiplier.markupMultiplier 0))

/-- Collapse an id that is absent or empty to `none` (both are skipped by the
resolvers' JavaScript truthiness checks). -/
def normalizeId (o : Option String) : Option String :=
  match o with
  | some s => if s = "" then none else some s
  | none => none

/-- Well-formedness of the rule store: a rule carries a `modelId` exactly when
it is model-scoped and a `toolId` exactly when it is tool-scoped. -/
def wellFormedRules (rules : List MarkupRule) : Prop :=
  ∀ r ∈ rules, (r.modelId.isSome ↔ r.scope = "model") ∧
    (r.toolId.isSome ↔ r.scope = "tool")

instance (rules : List MarkupRule) : Decidable (wellFormedRules rules) := by
  unfold wellFormedRules
  infer_instance

theorem store_model_hit (rules : List MarkupRule) (hwf : wellFormedRules rules)
    (p s : String) :
    (rules.find? (fun r =>
        decide (r.providerId = p ∧ r.modelId = some s))).map MarkupRule.markupMultiplier
      = ((modelMarkupMultipliersOf rules).find? (fun m =>
          decide (m.providerId = p ∧ m.modelId = s))).map
            ModelMarkupMultiplier.markupMultiplier := by
  induction rules with
  | nil => rfl
  | cons r rest ih =>
    have hwfr := hwf r (List.mem_cons_self r rest)
    have hwf' : wellFormedRules rest := fun x hx => hwf x (List.mem_cons_of_mem _ hx)
    unfold modelMarkupMultipliersOf
    by_cases hscope : r.scope = "model"
    · obtain ⟨mid, hmid⟩ := Option.isSome_iff_exists.mp (hwfr.1.mpr hscope)
      rw [List.filter_cons_of_pos (by simp [hscope]), List.map_cons]
      by_cases hp : r.providerId = p ∧ mid = s
      · rw [List.find?_cons_of_pos _ (by simp [hmid, hp.1, hp.2]),
          List.find?_cons_of_pos _ (by simp [hmid, hp.1, hp.2])]
        rfl
      · rw [List.find?_cons_of_neg _ (by simp [hmid]; intro h1 h2; exact hp ⟨h1, h2⟩),
          List.find?_cons_of_neg _ (by simp [hmid]; intro h1 h2; exact hp ⟨h1, h2⟩)]
        exact ih hwf'
    · have hnone : r.modelId = none := by
        cases hmid : r.modelId with
        | none => rfl
        | some v => exact absurd (hwfr.1.mp (by simp [hmid])) hscope
      rw [List.filter_cons_of_neg (by simp [hscope]),
        List.find?_cons_of_neg _ (by simp [hnone])]
      exact ih hwf'

theorem store_tool_hit (rules : List MarkupRule) (hwf : wellFormedRules rules)
    (p s : String) :
    (rules.find? (fun r =>
        decide (r.providerId = p ∧ r.toolId = some s))).map MarkupRule.markupMultiplier
      = ((toolMarkupMultipliersOf rules).find? (fun t =>
          decide (t.providerId = p ∧ t.toolId = s))).map
            ToolMarkupMultiplier.markupMultiplier := by
  induction rules with
  | nil => rfl
  | cons r rest ih =>
    have hwfr := hwf r (List.mem_cons_self r rest)
    have hwf' : wellFormedRules rest := fun x hx => hwf x (List.mem_cons_of_mem _ hx)
    unfold toolMarkupMultipliersOf
    by_cases hscope : r.scope = "tool"
    · obtain ⟨tid, htid⟩ := Option.isSome_iff_exists.mp (hwfr.2.mpr hscope)
      rw [List.filter_cons_of_pos (by simp [hscope]), List.map_cons]
      by_cases hp : r.providerId = p ∧ tid = s
      · rw [List.find?_cons_of_pos _ (by simp [htid, hp.1, hp.2]),
          List.find?_cons_of_pos _ (by simp [htid, hp.1, hp.2])]
        rfl
      · rw [List.find?_cons_of_neg _ (by simp [htid]; intro h1 h2; exact hp ⟨h1, h2⟩),
          List.find?_cons_of_neg _ (by simp [htid]; intro h1 h2; exact hp ⟨h1, h2⟩)]
        exact ih hwf'
    · have hnone : r.toolId = none := by
        cases htid : r.toolId with
        | none => rfl
        | some v => exact absurd (hwfr.2.mp (by simp [htid])) hscope
      rw [List.filter_cons_of_neg (by simp [hscope]),
        List.find?_cons_of_neg _ (by simp [hnone])]
      exact ih hwf'

theorem store_provider_hit (rules : List MarkupRule) (p : String) :
    (rules.find? (fun r =>
        decide (r.scope = "provider" ∧ r.providerId = p))).map MarkupRule.markupMultiplier
      = ((providerMultipliersOf rules).find? (fun q =>
          decide (q.providerId = p))).map ProviderMarkupMultiplier.markupMultiplier := by
  induction rules with
  | nil => rfl
  | cons r rest ih =>
    unfold providerMultipliersOf
    by_cases hscope : r.scope = "provider"
    · rw [List.filter_cons_of_pos (by simp [hscope]), List.map_cons]
      by_cases hp : r.providerId = p
      · rw [List.find?_cons_of_pos _ (by simp [hscope, hp]),
          List.find?_cons_of_pos _ (by simp [hp])]
        rfl
      · rw [List.find?_cons_of_neg _ (by simp [hp]),
          List.find?_cons_of_neg _ (by simp [hp])]
        exact ih
    · rw [List.filter_cons_of_neg (by simp [hscope]),
        List.find?_cons_of_neg _ (by simp [hscope])]
      exact ih

/-! ### C5: the markup cascade -/

/-- C5 counterexample: a model-scoped rule whose model id is the empty string
is ignored by both resolvers even though a model id is given in the query —
JavaScript truthiness (`if (modelId)`) treats the empty string as absent, so
resolution falls through to the default `0` instead of returning the matching
model rule's multiplier `5`. -/
theorem markup_empty_id_counterexample :
    getMarkupMultiplier "p" (some "") none [] [⟨"p", "", 5⟩] [] = 0 ∧
    getMarkupMultiplier "p" (some "") none [] [⟨"p", "", 5⟩] [] ≠ 5 ∧
    getMarkupMultiplierStore [⟨"model", "p", some "", none, 5⟩] "p" (some "") none = 0 ∧
    getMarkupMultiplierStore [⟨"model", "p", some "", none, 5⟩] "p" (some "") none ≠ 5 := by
  have h1 : getMarkupMultiplier "p" (some "") none [] [⟨"p", "", 5⟩] [] = 0 := by
    simp [getMarkupMultiplier, optStrTruthy, hitValue]
  have h2 : getMarkupMultiplierStore [⟨"model", "p", some "", none, 5⟩]
      "p" (some "") none = 0 := by
    simp [getMarkupMultiplierStore, optStrTruthy, hitValue]
  refine ⟨h1, ?_, h2, ?_⟩
  · rw [h1]; norm_num
  · rw [h2]; norm_num

/-- C5 amended: with ids that are absent or empty treated as not given, both
the in-process resolver and the store-backed resolver return the multiplier
of the first match in the cascade — a model-scoped rule matching
`(providerId, modelId)` if a model id is given, else a tool-scoped rule
matching `(providerId, toolId)` if a tool id is given, else a provider-scoped
rule matching `providerId`, else the default `0` — the store-backed one for
every well-formed rule table. -/
theorem markup_cascade (providerId : String) (modelId toolId : Option String)
    (pms : List ProviderMarkupMultiplier) (mms : List ModelMarkupMultiplier)
    (tms : List ToolMarkupMultiplier) (rules : List MarkupRule) :
    getMarkupMultiplier providerId modelId toolId pms mms tms
      = markupCascadeSpec providerId (normalizeId modelId) (normalizeId toolId)
          pms mms tms ∧
    (wellFormedRules rules →
      getMarkupMultiplierStore rules providerId modelId toolId
        = markupCascadeSpec providerId (normalizeId modelId) (normalizeId toolId)
            (providerMultipliersOf rules) (modelMarkupMultipliersOf rules)
            (toolMarkupMultipliersOf rules)) := by
  constructor
  · unfold getMarkupMultiplier markupCascadeSpec
    refine hitValue_congr ?_ (hitValue_congr ?_ (hitValue_congr rfl rfl))
    · cases modelId with
      | none => rfl
      | some s =>
        by_cases hs : s = ""
        · subst hs
          simp [optStrTruthy, normalizeId]
        · have hcond : optStrTruthy (some s) = true := by simp [optStrTruthy, hs]
          have hnorm : normalizeId (some s) = some s := by simp [normalizeId, hs]
          rw [if_pos hcond, hnorm, Option.some_bind]
          refine congrArg _ (find?_congr ?_ mms)
          intro m
          simp
    · cases toolId with
      | none => rfl
      | some s =>
        by_cases hs : s = ""
        · subst hs
          simp [optStrTruthy, normalizeId]
        · have hcond : optStrTruthy (some s) = true := by simp [optStrTruthy, hs]
          have hnorm : normalizeId (some s) = some s := by simp [normalizeId, hs]
          rw [if_pos hcond, hnorm, Option.some_bind]
          refine congrArg _ (find?_congr ?_ tms)
          intro t
          simp
  · intro hwf
    unfold getMarkupMultiplierStore markupCascadeSpec
    refine hitValue_congr ?_ (hitValue_congr ?_
      (hitValue_congr (store_provider_hit rules providerId) rfl))
    · cases modelId with
      | none => rfl
      | some s =>
        by_cases hs : s = ""
        · subst hs
          simp [optStrTruthy, normalizeId]
        · have hcond : optStrTruthy (some s) = true := by simp [optStrTruthy, hs]
          have hnorm : normalizeId (some s) = some s := by simp [normalizeId, hs]
          rw [if_pos hcond, hnorm, Option.some_bind]
          exact store_model_hit rules hwf providerId s
    · cases toolId with
      | none => rfl
      | some s =>
        by_cases hs : s = ""
        · subst hs
          simp [optStrTruthy, normalizeId]
        · have hcond : optStrTruthy (some s) = true := by simp [optStrTruthy, hs]
          have hnorm : normalizeId (some s) = some s := by simp [normalizeId, hs]
          rw [if_pos hcond, hnorm, Option.some_bind]
          exact store_tool_hit rules hwf providerId s

/-- Witness for C5's amended cascade on a concrete well-formed rule table:
the model-scoped rule (multiplier 2) beats the tool- and provider-scoped
ones. -/
theorem markup_cascade_witness :
    getMarkupMultiplier "p" (some "m") (some "t")
        [⟨"p", 3/2⟩] [⟨"p", "m", 2⟩] [⟨"p", "t", 7/4⟩]
      = markupCascadeSpec "p" (normalizeId (some "m")) (normalizeId (some "t"))
          [⟨"p", 3/2⟩] [⟨"p", "m", 2⟩] [⟨"p", "t", 7/4⟩] ∧
    getMarkupMultiplierStore
        [⟨"provider", "p", none, none, 3/2⟩,
         ⟨"model", "p", some "m", none, 2⟩,
         ⟨"tool", "p", none, some "t", 7/4⟩] "p" (some "m") (some "t")
      = markupCascadeSpec "p" (normalizeId (some "m")) (normalizeId (some "t"))
          (providerMultipliersOf
            [⟨"provider", "p", none, none, 3/2⟩,
             ⟨"model", "p", some "m", none, 2⟩,
             ⟨"tool", "p", none, some "t", 7/4⟩])
          (modelMarkupMultipliersOf
            [⟨"provider", "p", none, none, 3/2⟩,
             ⟨"model", "p", some "m", none, 2⟩,
             ⟨"tool", "p", none, some "t", 7/4⟩])
          (toolMarkupMultipliersOf
            [⟨"provider", "p", none, none, 3/2⟩,
             ⟨"model", "p", some "m", none, 2⟩,
             ⟨"tool", "p", none, some "t", 7/4⟩]) :=
  ⟨(markup_cascade "p" (some "m") (some "t") [⟨"p", 3/2⟩] [⟨"p", "m", 2⟩]
      [⟨"p", "t", 7/4⟩] []).1,
   (markup_cascade "p" (some "m") (some "t") [] [] []
      [⟨"provider", "p", none, none, 3/2⟩,
       ⟨"model", "p", some "m", none, 2⟩,
       ⟨"tool", "p", none, some "t", 7/4⟩]).2 (by decide)⟩

/-! ### C9: per-call markup overrides in the cost-add actions -/

/-- The all-zero user cost record `addAICost` stores when neither an explicit
multiplier nor a positive resolved markup is available. -/
def zeroUserCosts : CalculatedCosts :=
  { promptTokensCost := 0, completionTokensCost := 0, reasoningTokensCost := 0,
    cachedInputTokensCost := 0, totalCost := 0 }

/-- The user-cost computation of `addAICost` (aiCosts.ts): the explicit
per-call multiplier is used only when it is truthy *and* positive
(`args.markupMultiplier && args.markupMultiplier > 0 ? args.markupMultiplier
: markup`); otherwise the resolved markup is used, and if neither is
available the user costs are all zero. -/
def addAICostUserCosts (costs : CalculatedCosts) (overrideMultiplier : Option ℚ)
    (resolvedMarkup : ℚ) : CalculatedCosts :=
  if optNumTruthy overrideMultiplier || decide (0 < resolvedMarkup) then
    calculateUserCosts costs
      (if optNumTruthy overrideMultiplier &&
          decide (0 < overrideMultiplier.getD 0) then
        overrideMultiplier.getD 0
      else resolvedMarkup)
  else zeroUserCosts

/-- The effective multiplier of `addToolCost`
    (`args.markupMultiplier ?? markup`). -/
def addToolCostEffectiveMultiplier (overrideMultiplier : Option ℚ)
    (resolvedMarkup : ℚ) : ℚ :=
  overrideMultiplier.getD resolvedMarkup

/-- The cost computation of `addToolCost` for a tools-pricing record. -/
def addToolCostResult (usage : ToolUsage) (pricing : ToolPricing)
    (overrideMultiplier : Option ℚ) (resolvedMarkup : ℚ) :
    Except String CalculatedToolCost :=
  calculateToolCost usage pricing
    (addToolCostEffectiveMultiplier overrideMultiplier resolvedMarkup)

/-- C9 counterexample: `addAICost` with an explicit multiplier of `0` and a
resolved markup of `2` computes the user cost with the *resolved* multiplier
`2` — the explicit override does not win, contradicting "the explicit
override always wins over the resolved value, for every override value". -/
theorem aiCost_override_counterexample :
    addAICostUserCosts ⟨0, 0, 0, 0, 1⟩ (some 0) 2
      = calculateUserCosts ⟨0, 0, 0, 0, 1⟩ 2 ∧
    (addAICostUserCosts ⟨0, 0, 0, 0, 1⟩ (some 0) 2).totalCost = 2 ∧
    (calculateUserCosts ⟨0, 0, 0, 0, 1⟩ 0).totalCost = 0 ∧
    (addAICostUserCosts ⟨0, 0, 0, 0, 1⟩ (some 0) 2).totalCost
      ≠ (calculateUserCosts ⟨0, 0, 0, 0, 1⟩ 0).totalCost := by
  have h1 : addAICostUserCosts ⟨0, 0, 0, 0, 1⟩ (some 0) 2
      = calculateUserCosts ⟨0, 0, 0, 0, 1⟩ 2 := by
    norm_num [addAICostUserCosts, optNumTruthy]
  have h2 : (calculateUserCosts ⟨0, 0, 0, 0, 1⟩ 2).totalCost = 2 := by
    norm_num [calculateUserCosts, round8, jsRound]
  have h3 : (calculateUserCosts ⟨0, 0, 0, 0, 1⟩ 0).totalCost = 0 := by
    norm_num [calculateUserCosts, round8, jsRound]
  refine ⟨h1, by rw [h1]; exact h2, h3, ?_⟩
  rw [h1, h2, h3]
  norm_num

/-- C9 amended: `addToolCost` computes the cost with the explicit per-call
multiplier whenever one is supplied, for every value; `addAICost` uses the
explicit multiplier only when it is positive — a supplied non-positive
multiplier is ignored in favour of the resolved markup. -/
theorem cost_override (costs : CalculatedCosts) (v resolvedMarkup : ℚ)
    (usage : ToolUsage) (pricing : ToolPricing) :
    addToolCostEffectiveMultiplier (some v) resolvedMarkup = v ∧
    addToolCostResult usage pricing (some v) resolvedMarkup
      = calculateToolCost usage pricing v ∧
    (0 < v → addAICostUserCosts costs (some v) resolvedMarkup
      = calculateUserCosts costs v) := by
  refine ⟨rfl, rfl, ?_⟩
  intro hv
  have hne : v ≠ 0 := ne_of_gt hv
  simp [addAICostUserCosts, optNumTruthy, hne, hv]

/-- Witness for C9's amended statement with explicit multiplier `3` and
resolved markup `2`. -/
theorem cost_override_witness :
    addToolCostEffectiveMultiplier (some 3) 2 = 3 ∧
    addToolCostResult (.units 1 "pages") (.units 4 "pages" "USD") (some 3) 2
      = calculateToolCost (.units 1 "pages") (.units 4 "pages" "USD") 3 ∧
    addAICostUserCosts ⟨1, 1, 1, 1, 1⟩ (some 3) 2
      = calculateUserCosts ⟨1, 1, 1, 1, 1⟩ 3 :=
  have h := cost_override ⟨1, 1, 1, 1, 1⟩ 3 2 (.units 1 "pages")
    (.units 4 "pages" "USD")
  ⟨h.1, h.2.1, h.2.2 (by norm_num)⟩

/-! ### Pricing catalog synchronization (component/pricing.ts
`updatePricingTable`) -/

/-- `hasPricingChanged` from shared.ts: any tracked field differs (rate
fields, limits, display names); `lastUpdated` and the key fields are not
compared. -/
def hasPricingChanged (existing newPricing : Pricing) : Bool :=
  decide (existing.pricing.input ≠ newPricing.pricing.input) ||
  decide (existing.pricing.output ≠ newPricing.pricing.output) ||
  decide (existing.pricing.reasoning ≠ newPricing.pricing.reasoning) ||
  decide (existing.pricing.cache_read ≠ newPricing.pricing.cache_read) ||
  decide (existing.pricing.cache_write ≠ newPricing.pricing.cache_write) ||
  decide (existing.limits.context ≠ newPricing.limits.context) ||
  decide (existing.limits.output ≠ newPricing.limits.output) ||
  decide (existing.modelName ≠ newPricing.modelName) ||
  decide (existing.providerName ≠ newPricing.providerName)

/-- The catalog key `"modelId:providerId"`. -/
def entryKey (p : Pricing) : String := p.modelId ++ ":" ++ p.providerId

/-- A catalog row: document id paired with the record. -/
abbrev Db := List (Nat × Pricing)

/-- The lookup map from keys to rows. -/
abbrev Emap := List (String × (Nat × Pricing))

/-- JavaScript `Map` insertion: overwrite an existing key in place, else
append. -/
def mapInsert (m : Emap) (k : String) (v : Nat × Pricing) : Emap :=
  if m.any (fun q => q.1 == k) then
    m.map (fun q => if q.1 == k then (k, v) else q)
  else m ++ [(k, v)]

/-- `new Map(existingPricing.map(p => [key(p), p]))`. -/
def buildMap (db : Db) : Emap :=
  db.foldl (fun m e => mapInsert m (entryKey e.2) e) []

/-- `existingMap.get(key)`. -/
def mapLookup (m : Emap) (k : String) : Option (Nat × Pricing) :=
  (m.find? (fun q => q.1 == k)).map (fun q => q.2)

/-- First row of the catalog with the given key. -/
def dbFind (db : Db) (k : String) : Option (Nat × Pricing) :=
  db.find? (fun e => entryKey e.2 == k)

/-- The mutable state of one `updatePricingTable` run. -/
structure SyncState where
  db : Db
  seen : List String
  nextId : Nat
  insertCount : Nat
  updateCount : Nat
  deleteCount : Nat
deriving DecidableEq

/-- One iteration of the per-entry loop: mark the key seen, insert when the
key is unknown to the (fixed) map, patch the existing row by id when a
tracked field changed, else no write. -/
def processEntry (emap : Emap) (st : SyncState) (newPricing : Pricing) :
    SyncState :=
  let k := entryKey newPricing
  let st1 : SyncState := { st with seen := st.seen ++ [k] }
  match mapLookup emap k with
  | none =>
    { st1 with db := st1.db ++ [(st1.nextId, newPricing)],
               nextId := st1.nextId + 1,
               insertCount := st1.insertCount + 1 }
  | some ex =>
    if hasPricingChanged ex.2 newPricing then
      { st1 with
          db := st1.db.map (fun e => if e.1 = ex.1 then (e.1, newPricing) else e),
          updateCount := st1.updateCount + 1 }
    else st1

/-- One iteration of the deletion loop over the map's entries: delete the row
by id when its key was not seen. -/
def deleteEntry (st : SyncState) (q : String × (Nat × Pricing)) : SyncState :=
  if st.seen.contains q.1 then st
  else { st with db := st.db.filter (fun e => decide (e.1 ≠ q.2.1)),
                 deleteCount := st.deleteCount + 1 }

/-- `updatePricingTable`: index the current catalog, process every feed entry
(insert / patch / skip), then delete every indexed row whose key was not
seen. -/
def updatePricingTable (db : Db) (nextId : Nat) (feed : List Pricing) :
    SyncState :=
  let emap := buildMap db
  let st1 := feed.foldl (processEntry emap)
    { db := db, seen := [], nextId := nextId,
      insertCount := 0, updateCount := 0, deleteCount := 0 }
  emap.foldl deleteEntry st1

/-- A feed entry's key is unknown to the map (it will be inserted). -/
def insPred (emap : Emap) (f : Pricing) : Bool :=
  (mapLookup emap (entryKey f)).isNone

/-- A feed entry hits an existing row whose tracked fields changed (it will
be patched). -/
def updPred (emap : Emap) (f : Pricing) : Bool :=
  match mapLookup emap (entryKey f) with
  | some ex => hasPricingChanged ex.2 f
  | none => false

/-- The row `e` is the patch target of feed entry `f`. -/
def patchCond (emap : Emap) (e : Nat × Pricing) (f : Pricing) : Bool :=
  match mapLookup emap (entryKey f) with
  | some ex => decide (ex.1 = e.1) && hasPricingChanged ex.2 f
  | none => false

/-- The row `e` after the whole per-entry loop: replaced by the first feed
entry that patches it, else unchanged. -/
def patchOf (emap : Emap) (feed : List Pricing) (e : Nat × Pricing) :
    Nat × Pricing :=
  match feed.find? (patchCond emap e) with
  | some f => (e.1, f)
  | none => e

/-- The rows appended by the per-entry loop: one fresh id per feed entry
whose key is unknown to the map. -/
def insertedRows (emap : Emap) (nid : Nat) : List Pricing → Db
  | [] => []
  | f :: fs =>
    if insPred emap f then (nid, f) :: insertedRows emap (nid + 1) fs
    else insertedRows emap nid fs

theorem processFeed_seen (emap : Emap) (feed : List Pricing) (st : SyncState) :
    (feed.foldl (processEntry emap) st).seen = st.seen ++ feed.map entryKey := by
  induction feed generalizing st with
  | nil => simp
  | cons f fs ih =>
    rw [List.foldl_cons, ih]
    unfold processEntry
    rcases hlook : mapLookup emap (entryKey f) with _ | ex <;> simp only [hlook]
    · simp
    · by_cases hc : hasPricingChanged ex.2 f <;> simp [hc]

theorem processFeed_insertCount (emap : Emap) (feed : List Pricing)
    (st : SyncState) :
    (feed.foldl (processEntry emap) st).insertCount
      = st.insertCount + feed.countP (insPred emap) := by
  induction feed generalizing st with
  | nil => simp
  | cons f fs ih =>
    rw [List.foldl_cons, ih, List.countP_cons]
    unfold processEntry insPred
    rcases hlook : mapLookup emap (entryKey f) with _ | ex <;> simp only [hlook]
    · simp [Option.isNone]
      omega
    · by_cases hc : hasPricingChanged ex.2 f <;> simp [hc, Option.isNone]

theorem processFeed_updateCount (emap : Emap) (feed : List Pricing)
    (st : SyncState) :
    (feed.foldl (processEntry emap) st).updateCount
      = st.updateCount + feed.countP (updPred emap) := by
  induction feed generalizing st with
  | nil => simp
  | cons f fs ih =>
    rw [List.foldl_cons, ih, List.countP_cons]
    unfold processEntry updPred
    rcases hlook : mapLookup emap (entryKey f) with _ | ex <;> simp only [hlook]
    · simp
    · by_cases hc : hasPricingChanged ex.2 f <;> simp [hc] <;> omega

theorem processFeed_deleteCount (emap : Emap) (feed : List Pricing)
    (st : SyncState) :
    (feed.foldl (processEntry emap) st).deleteCount = st.deleteCount := by
  induction feed generalizing st with
  | nil => rfl
  | cons f fs ih =>
    rw [List.foldl_cons, ih]
    unfold processEntry
    rcases hlook : mapLookup emap (entryKey f) with _ | ex <;> simp only [hlook]
    by_cases hc : hasPricingChanged ex.2 f <;> simp [hc]

theorem processFeed_nextId (emap : Emap) (feed : List Pricing) (st : SyncState) :
    (feed.foldl (processEntry emap) st).nextId
      = st.nextId + feed.countP (insPred emap) := by
  induction feed generalizing st with
  | nil => simp
  | cons f fs ih =>
    rw [List.foldl_cons, ih, List.countP_cons]
    unfold processEntry insPred
    rcases hlook : mapLookup emap (entryKey f) with _ | ex <;> simp only [hlook]
    · simp [Option.isNone]
      omega
    · by_cases hc : hasPricingChanged ex.2 f <;> simp [hc, Option.isNone]

theorem insertedRows_cons (emap : Emap) (nid : Nat) (f : Pricing)
    (fs : List Pricing) :
    insertedRows emap nid (f :: fs)
      = if insPred emap f then (nid, f) :: insertedRows emap (nid + 1) fs
        else insertedRows emap nid fs := rfl

theorem mapLookup_mem {m : Emap} {k : String} {ex : Nat × Pricing}
    (h : mapLookup m k = some ex) : ∃ q ∈ m, q.1 = k ∧ q.2 = ex := by
  unfold mapLookup at h
  rcases hf : m.find? (fun q => q.1 == k) with _ | q <;> rw [hf] at h
  · exact Option.noConfusion h
  · have h2 : q.2 = ex := Option.some.inj h
    have hb := List.find?_some hf
    exact ⟨q, List.mem_of_find?_eq_some hf, beq_iff_eq.mp hb, h2⟩

/-- Characterization of the per-entry loop: it patches the existing rows in
place and appends one fresh row per unknown key. -/
theorem processFeed_db (emap : Emap)
    (hids : (emap.map (fun q => q.2.1)).Nodup) :
    ∀ (feed : List Pricing) (st : SyncState),
      (∀ q ∈ emap, q.2.1 < st.nextId) →
      (feed.map entryKey).Nodup →
      (feed.foldl (processEntry emap) st).db
        = st.db.map (patchOf emap feed) ++ insertedRows emap st.nextId feed := by
  intro feed
  induction feed with
  | nil =>
    intro st _ _
    rw [List.foldl_nil]
    have h1 : ∀ e ∈ st.db, patchOf emap [] e = e := fun e _ => rfl
    rw [List.map_congr_left h1, List.map_id']
    rw [show insertedRows emap st.nextId [] = [] from rfl, List.append_nil]
  | cons f fs ih =>
    intro st hfresh hfeed
    obtain ⟨hknotin, hfeed'⟩ := List.nodup_cons.mp hfeed
    rw [List.foldl_cons]
    rcases hlook : mapLookup emap (entryKey f) with _ | ex
    · -- insert: the key is unknown to the map
      have hstep : processEntry emap st f
          = { st with db := st.db ++ [(st.nextId, f)],
                      seen := st.seen ++ [entryKey f],
                      nextId := st.nextId + 1,
                      insertCount := st.insertCount + 1 } := by
        simp only [processEntry]
        rw [hlook]
      have hfresh' : ∀ q ∈ emap, q.2.1 < st.nextId + 1 :=
        fun q hq => Nat.lt_succ_of_lt (hfresh q hq)
      rw [hstep, ih _ hfresh' hfeed']
      dsimp only
      have hins : insertedRows emap st.nextId (f :: fs)
          = (st.nextId, f) :: insertedRows emap (st.nextId + 1) fs := by
        have hp : insPred emap f = true := by
          unfold insPred
          rw [hlook]
          rfl
        rw [insertedRows_cons, if_pos hp]
      have hpf : ∀ e, patchCond emap e f = false := by
        intro e
        unfold patchCond
        rw [hlook]
      have hmap : st.db.map (patchOf emap (f :: fs)) = st.db.map (patchOf emap fs) := by
        refine List.map_congr_left (fun e _ => ?_)
        unfold patchOf
        rw [List.find?_cons_of_neg _ (by simp [hpf e])]
      have hself : patchOf emap fs (st.nextId, f) = (st.nextId, f) := by
        unfold patchOf
        have hn : fs.find? (patchCond emap (st.nextId, f)) = none := by
          rw [List.find?_eq_none]
          intro g _
          unfold patchCond
          rcases hlg : mapLookup emap (entryKey g) with _ | ex2 <;> (try rw [hlg])
          · simp
          · obtain ⟨q, hq, _, hq2⟩ := mapLookup_mem hlg
            have hlt : ex2.1 < st.nextId := hq2 ▸ hfresh q hq
            simp only [Bool.and_eq_true, decide_eq_true_eq, not_and]
            intro he
            omega
        rw [hn]
      rw [hins, List.map_append, hmap]
      simp [hself]
    · obtain ⟨qx, hqx, hqx1, hqx2⟩ := mapLookup_mem hlook
      have hins : insertedRows emap st.nextId (f :: fs)
          = insertedRows emap st.nextId fs := by
        have hp : ¬(insPred emap f = true) := by
          unfold insPred
          rw [hlook]
          simp
        rw [insertedRows_cons, if_neg hp]
      by_cases hc : hasPricingChanged ex.2 f
      · -- patch: the tracked fields changed
        have hstep : processEntry emap st f
            = { st with
                  db := st.db.map (fun e => if e.1 = ex.1 then (e.1, f) else e),
                  seen := st.seen ++ [entryKey f],
                  updateCount := st.updateCount + 1 } := by
          simp only [processEntry]
          rw [hlook]
          dsimp only
          rw [if_pos hc]
        rw [hstep, ih { st with
            db := st.db.map (fun e => if e.1 = ex.1 then (e.1, f) else e),
            seen := st.seen ++ [entryKey f],
            updateCount := st.updateCount + 1 }
          (fun q hq => hfresh q hq) hfeed']
        dsimp only
        rw [List.map_map, hins]
        have hmap : ∀ e ∈ st.db,
            patchOf emap (f :: fs) e
              = (patchOf emap fs ∘ fun e => if e.1 = ex.1 then (e.1, f) else e) e := by
          intro e _
          by_cases he : e.1 = ex.1
          · have hcond : patchCond emap e f = true := by
              unfold patchCond
              rw [hlook]
              simp [he.symm, hc]
            unfold patchOf
            rw [List.find?_cons_of_pos _ hcond]
            simp only [Function.comp_apply, if_pos he]
            have hn : fs.find? (patchCond emap (e.1, f)) = none := by
              rw [List.find?_eq_none]
              intro g hg
              unfold patchCond
              rcases hlg : mapLookup emap (entryKey g) with _ | ex2 <;> (try rw [hlg])
              · simp
              · obtain ⟨q2, hq2, hq21, hq22⟩ := mapLookup_mem hlg
                simp only [Bool.and_eq_true, decide_eq_true_eq, not_and]
                intro heq _
                have hqq : q2 = qx := by
                  refine List.inj_on_of_nodup_map hids hq2 hqx ?_
                  rw [hq22, hqx2, heq, he]
                have hkeq : entryKey g = entryKey f := by
                  rw [← hq21, hqq, hqx1]
                exact absurd (hkeq ▸ List.mem_map_of_mem entryKey hg) hknotin
            rw [hn]
          · have hcond : patchCond emap e f = false := by
              unfold patchCond
              rw [hlook]
              have hne : ¬(ex.1 = e.1) := fun h => he h.symm
              simp [hne]
            unfold patchOf
            rw [List.find?_cons_of_neg _ (by simp [hcond])]
            simp only [Function.comp_apply, if_neg he]
        rw [List.map_congr_left hmap]
      · -- skip: nothing changed
        have hstep : processEntry emap st f
            = { st with seen := st.seen ++ [entryKey f] } := by
          simp only [processEntry]
          rw [hlook]
          dsimp only
          rw [if_neg hc]
        rw [hstep, ih { st with seen := st.seen ++ [entryKey f] }
          (fun q hq => hfresh q hq) hfeed']
        dsimp only
        rw [hins]
        have hmap : ∀ e ∈ st.db,
            patchOf emap (f :: fs) e = patchOf emap fs e := by
          intro e _
          have hcond : patchCond emap e f = false := by
            unfold patchCond
            rw [hlook]
            simp [hc]
          unfold patchOf
          rw [List.find?_cons_of_neg _ (by simp [hcond])]
        rw [List.map_congr_left hmap]

/-- Ids of the map entries whose key was not seen: exactly the rows the
deletion loop removes. -/
def delIds (emap : Emap) (seen : List String) : List Nat :=
  (emap.filter (fun q => !(seen.contains q.1))).map (fun q => q.2.1)

theorem deletePhase_seen (emap : Emap) (st : SyncState) :
    (emap.foldl deleteEntry st).seen = st.seen := by
  induction emap generalizing st with
  | nil => rfl
  | cons q rest ih =>
    rw [List.foldl_cons, ih]
    unfold deleteEntry
    by_cases hq : q.1 ∈ st.seen <;> simp [hq]

theorem deletePhase_insertCount (emap : Emap) (st : SyncState) :
    (emap.foldl deleteEntry st).insertCount = st.insertCount := by
  induction emap generalizing st with
  | nil => rfl
  | cons q rest ih =>
    rw [List.foldl_cons, ih]
    unfold deleteEntry
    by_cases hq : q.1 ∈ st.seen <;> simp [hq]

theorem deletePhase_updateCount (emap : Emap) (st : SyncState) :
    (emap.foldl deleteEntry st).updateCount = st.updateCount := by
  induction emap generalizing st with
  | nil => rfl
  | cons q rest ih =>
    rw [List.foldl_cons, ih]
    unfold deleteEntry
    by_cases hq : q.1 ∈ st.seen <;> simp [hq]

theorem deletePhase_nextId (emap : Emap) (st : SyncState) :
    (emap.foldl deleteEntry st).nextId = st.nextId := by
  induction emap generalizing st with
  | nil => rfl
  | cons q rest ih =>
    rw [List.foldl_cons, ih]
    unfold deleteEntry
    by_cases hq : q.1 ∈ st.seen <;> simp [hq]

theorem deletePhase_deleteCount (emap : Emap) (st : SyncState) :
    (emap.foldl deleteEntry st).deleteCount
      = st.deleteCount + emap.countP (fun q => !(st.seen.contains q.1)) := by
  induction emap generalizing st with
  | nil => simp
  | cons q rest ih =>
    rw [List.foldl_cons, ih, List.countP_cons]
    unfold deleteEntry
    by_cases hq : q.1 ∈ st.seen <;> simp [hq] <;> omega

theorem deletePhase_db (emap : Emap) (st : SyncState) :
    (emap.foldl deleteEntry st).db
      = st.db.filter (fun e => !((delIds emap st.seen).contains e.1)) := by
  induction emap generalizing st with
  | nil =>
    rw [List.foldl_nil]
    have h1 : ∀ e ∈ st.db, (!((delIds [] st.seen).contains e.1)) = true := by
      intro e _
      rfl
    rw [List.filter_congr h1, List.filter_true]
  | cons q rest ih =>
    rw [List.foldl_cons]
    by_cases hq : q.1 ∈ st.seen
    · have hstep : deleteEntry st q = st := by
        unfold deleteEntry
        simp [hq]
      rw [hstep, ih]
      have hdel : delIds (q :: rest) st.seen = delIds rest st.seen := by
        unfold delIds
        rw [List.filter_cons_of_neg (by simp [hq])]
      rw [hdel]
    · have hstep : deleteEntry st q
          = { st with db := st.db.filter (fun e => decide (e.1 ≠ q.2.1)),
                      deleteCount := st.deleteCount + 1 } := by
        unfold deleteEntry
        simp [hq]
      rw [hstep, ih]
      dsimp only
      have hdel : delIds (q :: rest) st.seen = q.2.1 :: delIds rest st.seen := by
        unfold delIds
        rw [List.filter_cons_of_pos (by simp [hq]), List.map_cons]
      rw [hdel, List.filter_filter]
      refine List.filter_congr (fun e _ => ?_)
      simp only [List.contains_cons, Bool.not_or, Bool.and_comm]
      rw [show (e.1 == q.2.1) = decide (e.1 = q.2.1) from rfl]
      by_cases he : e.1 = q.2.1 <;> simp [he]

/-- Under distinct catalog keys, the JavaScript `Map` is just the association
list of `(key, row)` pairs in catalog order. -/
theorem buildMap_eq (db : Db)
    (hkeys : (db.map (fun e => entryKey e.2)).Nodup) :
    buildMap db = db.map (fun e => (entryKey e.2, e)) := by
  have haux : ∀ (l : List (Nat × Pricing)) (acc : Emap),
      (l.map (fun e => entryKey e.2)).Nodup →
      (∀ e ∈ l, ∀ q ∈ acc, entryKey e.2 ≠ q.1) →
      l.foldl (fun m e => mapInsert m (entryKey e.2) e) acc
        = acc ++ l.map (fun e => (entryKey e.2, e)) := by
    intro l
    induction l with
    | nil => intro acc _ _; simp
    | cons e rest ih =>
      intro acc hnd hdisj
      obtain ⟨hnotin, hnd'⟩ := List.nodup_cons.mp hnd
      rw [List.foldl_cons]
      have hmi : mapInsert acc (entryKey e.2) e = acc ++ [(entryKey e.2, e)] := by
        unfold mapInsert
        have hany : acc.any (fun q => q.1 == entryKey e.2) = false := by
          rw [List.any_eq_false]
          intro q hq
          simp only [beq_iff_eq]
          exact fun hc => hdisj e (List.mem_cons_self e rest) q hq hc.symm
        rw [hany]
        simp
      rw [hmi, ih (acc ++ [(entryKey e.2, e)]) hnd' ?_]
      · simp
      · intro e' he' q hq
        rcases List.mem_append.mp hq with hq1 | hq2
        · exact hdisj e' (List.mem_cons_of_mem _ he') q hq1
        · rw [List.mem_singleton.mp hq2]
          intro hc
          apply hnotin
          have hc2 : entryKey e'.2 = entryKey e.2 := hc
          exact List.mem_map.mpr ⟨e', he', hc2⟩
  unfold buildMap
  rw [haux db [] hkeys (by simp)]
  simp

theorem mapLookup_map_form (db : Db) (k : String) :
    mapLookup (db.map (fun e => (entryKey e.2, e))) k = dbFind db k := by
  unfold mapLookup dbFind
  rw [List.find?_map, Option.map_map]
  have hp : (((fun q => q.1 == k) ∘ fun e => (entryKey e.2, e)) :
      (Nat × Pricing) → Bool) = (fun e => entryKey e.2 == k) := rfl
  rw [hp]
  have hid : (((fun q => q.2) ∘ fun e => (entryKey e.2, e)) :
      (Nat × Pricing) → Nat × Pricing) = id := rfl
  rw [hid, Option.map_id]
  rfl

theorem dbFind_eq_none (db : Db) (k : String) :
    dbFind db k = none ↔ k ∉ db.map (fun e => entryKey e.2) := by
  unfold dbFind
  rw [List.find?_eq_none]
  constructor
  · intro h hk
    obtain ⟨e, he, hke⟩ := List.mem_map.mp hk
    exact h e he (by simp [hke])
  · intro h e he
    simp only [beq_iff_eq]
    intro hc
    exact h (hc ▸ List.mem_map_of_mem (fun e => entryKey e.2) he)

theorem insertedRows_fst_ge (emap : Emap) :
    ∀ (feed : List Pricing) (nid : Nat) (r : Nat × Pricing),
      r ∈ insertedRows emap nid feed → nid ≤ r.1 := by
  intro feed
  induction feed with
  | nil => intro nid r hr; cases hr
  | cons f fs ih =>
    intro nid r hr
    rw [insertedRows_cons] at hr
    by_cases hp : insPred emap f
    · rw [if_pos hp] at hr
      rcases List.mem_cons.mp hr with rfl | hr2
      · exact Nat.le_refl _
      · exact Nat.le_of_succ_le (ih (nid + 1) r hr2)
    · rw [if_neg hp] at hr
      exact ih nid r hr

theorem insertedRows_fst_lt (emap : Emap) :
    ∀ (feed : List Pricing) (nid : Nat) (r : Nat × Pricing),
      r ∈ insertedRows emap nid feed → r.1 < nid + feed.countP (insPred emap) := by
  intro feed
  induction feed with
  | nil => intro nid r hr; cases hr
  | cons f fs ih =>
    intro nid r hr
    rw [insertedRows_cons] at hr
    rw [List.countP_cons]
    by_cases hp : insPred emap f
    · rw [if_pos hp] at hr
      rcases List.mem_cons.mp hr with rfl | hr2
      · simp only [hp, if_pos]
        omega
      · have := ih (nid + 1) r hr2
        simp only [hp, if_pos]
        omega
    · rw [if_neg hp] at hr
      have := ih nid r hr
      simp only [hp]
      omega

theorem insertedRows_ids_nodup (emap : Emap) :
    ∀ (feed : List Pricing) (nid : Nat),
      ((insertedRows emap nid feed).map Prod.fst).Nodup := by
  intro feed
  induction feed with
  | nil => intro nid; simp [insertedRows]
  | cons f fs ih =>
    intro nid
    rw [insertedRows_cons]
    by_cases hp : insPred emap f
    · rw [if_pos hp, List.map_cons, List.nodup_cons]
      refine ⟨?_, ih (nid + 1)⟩
      intro hmem
      obtain ⟨r, hr, hr1⟩ := List.mem_map.mp hmem
      have := insertedRows_fst_ge emap fs (nid + 1) r hr
      omega
    · rw [if_neg hp]
      exact ih nid

theorem insertedRows_keys (emap : Emap) :
    ∀ (feed : List Pricing) (nid : Nat),
      (insertedRows emap nid feed).map (fun e => entryKey e.2)
        = (feed.filter (insPred emap)).map entryKey := by
  intro feed
  induction feed with
  | nil => intro nid; rfl
  | cons f fs ih =>
    intro nid
    rw [insertedRows_cons]
    by_cases hp : insPred emap f
    · rw [if_pos hp, List.filter_cons_of_pos hp, List.map_cons, List.map_cons,
        ih (nid + 1)]
    · rw [if_neg hp, List.filter_cons_of_neg hp, ih nid]

theorem insertedRows_mem (emap : Emap) :
    ∀ (feed : List Pricing) (nid : Nat) (f : Pricing),
      f ∈ feed → insPred emap f = true →
      ∃ i, (i, f) ∈ insertedRows emap nid feed := by
  intro feed
  induction feed with
  | nil => intro nid f hf; cases hf
  | cons g gs ih =>
    intro nid f hf hp
    rw [insertedRows_cons]
    rcases List.mem_cons.mp hf with rfl | hf2
    · rw [if_pos hp]
      exact ⟨nid, List.mem_cons_self _ _⟩
    · by_cases hg : insPred emap g
      · rw [if_pos hg]
        obtain ⟨i, hi⟩ := ih (nid + 1) f hf2 hp
        exact ⟨i, List.mem_cons_of_mem _ hi⟩
      · rw [if_neg hg]
        exact ih nid f hf2 hp

theorem countP_mem_comm {l1 l2 : List String} (h1 : l1.Nodup) (h2 : l2.Nodup) :
    l1.countP (fun k => l2.contains k) = l2.countP (fun k => l1.contains k) := by
  rw [List.countP_eq_length_filter, List.countP_eq_length_filter]
  rw [← List.toFinset_card_of_nodup (h1.filter _),
    ← List.toFinset_card_of_nodup (h2.filter _)]
  congr 1
  ext x
  simp only [List.mem_toFinset, List.mem_filter, List.elem_iff]
  exact ⟨fun ⟨a, b⟩ => ⟨b, a⟩, fun ⟨a, b⟩ => ⟨b, a⟩⟩

theorem countP_not {α : Type} (l : List α) (p : α → Bool) :
    l.countP (fun a => !p a) = l.length - l.countP p := by
  have h := List.length_eq_countP_add_countP p l
  have h2 : l.countP (fun a => decide ¬p a = true) = l.countP (fun a => !p a) :=
    List.countP_congr (fun a _ => by cases hp : p a <;> simp [hp])
  omega

theorem patchOf_fst (emap : Emap) (feed : List Pricing) (e : Nat × Pricing) :
    (patchOf emap feed e).1 = e.1 := by
  unfold patchOf
  rcases hf : feed.find? (patchCond emap e) with _ | f <;> rfl

theorem patchCond_spec {emap : Emap} {e : Nat × Pricing} {f : Pricing}
    (h : patchCond emap e f = true) :
    ∃ ex, mapLookup emap (entryKey f) = some ex ∧ ex.1 = e.1 ∧
      hasPricingChanged ex.2 f = true := by
  unfold patchCond at h
  rcases hlk : mapLookup emap (entryKey f) with _ | ex <;> rw [hlk] at h
  · exact Bool.noConfusion h
  · rw [Bool.and_eq_true] at h
    exact ⟨ex, rfl, of_decide_eq_true h.1, h.2⟩

theorem dbFind_key {db : Db} {k : String} {ex : Nat × Pricing}
    (h : dbFind db k = some ex) : ex ∈ db ∧ entryKey ex.2 = k := by
  unfold dbFind at h
  have hb := List.find?_some h
  exact ⟨List.mem_of_find?_eq_some h, beq_iff_eq.mp hb⟩

/-- Patching never changes a row's key: the patch source has the same key as
the row it targets. -/
theorem patchOf_key (db : Db) (feed : List Pricing)
    (hkeys : (db.map (fun e => entryKey e.2)).Nodup)
    (hids : (db.map Prod.fst).Nodup) :
    ∀ e ∈ db, entryKey (patchOf (buildMap db) feed e).2 = entryKey e.2 := by
  intro e he
  unfold patchOf
  rcases hf : feed.find? (patchCond (buildMap db) e) with _ | f
  · rfl
  · obtain ⟨ex, hlk, hid, _⟩ := patchCond_spec (List.find?_some hf)
    rw [buildMap_eq db hkeys, mapLookup_map_form] at hlk
    obtain ⟨hexmem, hexkey⟩ := dbFind_key hlk
    have hee : ex = e :=
      List.inj_on_of_nodup_map hids hexmem he hid
    rw [← hexkey, hee]

/-- A row's id is slated for deletion exactly when its key is not among the
seen keys. -/
theorem mem_delIds (db : Db) (seen : List String)
    (hkeys : (db.map (fun e => entryKey e.2)).Nodup)
    (hids : (db.map Prod.fst).Nodup) :
    ∀ e ∈ db, (e.1 ∈ delIds (buildMap db) seen ↔ entryKey e.2 ∉ seen) := by
  intro e he
  unfold delIds
  rw [buildMap_eq db hkeys]
  constructor
  · intro hmem
    obtain ⟨q, hq, hq1⟩ := List.mem_map.mp hmem
    obtain ⟨hqf, hqp⟩ := List.mem_filter.mp hq
    obtain ⟨e', he', rfl⟩ := List.mem_map.mp hqf
    have hfst : e'.1 = e.1 := hq1
    have hee : e' = e := List.inj_on_of_nodup_map hids he' he hfst
    subst hee
    simpa using hqp
  · intro hnot
    refine List.mem_map.mpr ⟨(entryKey e.2, e), ?_, rfl⟩
    refine List.mem_filter.mpr ⟨List.mem_map_of_mem _ he, ?_⟩
    simpa using hnot

/-- Whole-run characterization of `updatePricingTable`: the final catalog is
the patched original rows whose keys appear in the feed, followed by the
freshly inserted rows; the counters count unknown keys, changed rows and
unseen keys respectively. -/
theorem updatePricingTable_spec (db : Db) (nextId : Nat) (feed : List Pricing)
    (hkeys : (db.map (fun e => entryKey e.2)).Nodup)
    (hids : (db.map Prod.fst).Nodup)
    (hfresh : ∀ e ∈ db, e.1 < nextId)
    (hfeed : (feed.map entryKey).Nodup) :
    (updatePricingTable db nextId feed).db
      = (db.map (patchOf (buildMap db) feed)).filter
          (fun e => (feed.map entryKey).contains (entryKey e.2))
        ++ insertedRows (buildMap db) nextId feed ∧
    (updatePricingTable db nextId feed).seen = feed.map entryKey ∧
    (updatePricingTable db nextId feed).nextId
      = nextId + feed.countP (insPred (buildMap db)) ∧
    (updatePricingTable db nextId feed).insertCount
      = feed.countP (insPred (buildMap db)) ∧
    (updatePricingTable db nextId feed).updateCount
      = feed.countP (updPred (buildMap db)) ∧
    (updatePricingTable db nextId feed).deleteCount
      = db.countP (fun e => !((feed.map entryKey).contains (entryKey e.2))) := by
  have hbm := buildMap_eq db hkeys
  have hemids : ((buildMap db).map (fun q => q.2.1)).Nodup := by
    rw [hbm, List.map_map]
    exact hids
  have hemfresh : ∀ q ∈ buildMap db, q.2.1 < nextId := by
    intro q hq
    rw [hbm] at hq
    obtain ⟨e, he, rfl⟩ := List.mem_map.mp hq
    exact hfresh e he
  unfold updatePricingTable
  set st0 : SyncState :=
    { db := db, seen := [], nextId := nextId,
      insertCount := 0, updateCount := 0, deleteCount := 0 } with hst0
  set st1 := feed.foldl (processEntry (buildMap db)) st0 with hst1
  have h1db : st1.db
      = db.map (patchOf (buildMap db) feed)
        ++ insertedRows (buildMap db) nextId feed :=
    processFeed_db (buildMap db) hemids feed st0 hemfresh hfeed
  have h1seen : st1.seen = feed.map entryKey := by
    rw [hst1, processFeed_seen]
    rfl
  have h1nid : st1.nextId = nextId + feed.countP (insPred (buildMap db)) := by
    rw [hst1, processFeed_nextId]
  have h1ins : st1.insertCount = feed.countP (insPred (buildMap db)) := by
    rw [hst1, processFeed_insertCount]
    simp [hst0]
  have h1upd : st1.updateCount = feed.countP (updPred (buildMap db)) := by
    rw [hst1, processFeed_updateCount]
    simp [hst0]
  have h1del : st1.deleteCount = 0 := by
    rw [hst1, processFeed_deleteCount]
  refine ⟨?_, ?_, ?_, ?_, ?_, ?_⟩
  · rw [deletePhase_db, h1seen, h1db, List.filter_append]
    have hB : (insertedRows (buildMap db) nextId feed).filter
        (fun e => !((delIds (buildMap db) (feed.map entryKey)).contains e.1))
        = insertedRows (buildMap db) nextId feed := by
      rw [List.filter_eq_self]
      intro r hr
      have hge := insertedRows_fst_ge (buildMap db) feed nextId r hr
      have hnotmem : r.1 ∉ delIds (buildMap db) (feed.map entryKey) := by
        unfold delIds
        intro hc
        obtain ⟨q, hq, hq1⟩ := List.mem_map.mp hc
        have hqm : q ∈ buildMap db := (List.mem_filter.mp hq).1
        have := hemfresh q hqm
        omega
      simpa using hnotmem
    have hA : (db.map (patchOf (buildMap db) feed)).filter
        (fun e => !((delIds (buildMap db) (feed.map entryKey)).contains e.1))
        = (db.map (patchOf (buildMap db) feed)).filter
          (fun e => (feed.map entryKey).contains (entryKey e.2)) := by
      refine List.filter_congr (fun pe hpe => ?_)
      obtain ⟨e, he, rfl⟩ := List.mem_map.mp hpe
      rw [patchOf_fst, patchOf_key db feed hkeys hids e he]
      by_cases hk : entryKey e.2 ∈ feed.map entryKey
      · have hdel : e.1 ∉ delIds (buildMap db) (feed.map entryKey) := by
          rw [mem_delIds db (feed.map entryKey) hkeys hids e he]
          simp [hk]
        simp [hdel, hk]
      · have hdel : e.1 ∈ delIds (buildMap db) (feed.map entryKey) :=
          (mem_delIds db (feed.map entryKey) hkeys hids e he).mpr hk
        simp [hdel, hk]
    rw [hA, hB]
  · rw [deletePhase_seen, h1seen]
  · rw [deletePhase_nextId, h1nid]
  · rw [deletePhase_insertCount, h1ins]
  · rw [deletePhase_updateCount, h1upd]
  · rw [deletePhase_deleteCount, h1del, h1seen, hbm, List.countP_map]
    simp only [Nat.zero_add]
    rfl

theorem mapLookup_buildMap (db : Db) (k : String)
    (hkeys : (db.map (fun e => entryKey e.2)).Nodup) :
    mapLookup (buildMap db) k = dbFind db k := by
  rw [buildMap_eq db hkeys, mapLookup_map_form]

theorem insPred_buildMap (db : Db) (f : Pricing)
    (hkeys : (db.map (fun e => entryKey e.2)).Nodup) :
    insPred (buildMap db) f
      = !((db.map (fun e => entryKey e.2)).contains (entryKey f)) := by
  unfold insPred
  rw [mapLookup_buildMap db (entryKey f) hkeys]
  by_cases hk : entryKey f ∈ db.map (fun e => entryKey e.2)
  · rcases hfind : dbFind db (entryKey f) with _ | e
    · exact absurd hk ((dbFind_eq_none db (entryKey f)).mp hfind)
    · simp [hfind, hk]
  · have hfind := (dbFind_eq_none db (entryKey f)).mpr hk
    simp [hfind, hk]

theorem updPred_buildMap (db : Db) (f : Pricing)
    (hkeys : (db.map (fun e => entryKey e.2)).Nodup) :
    updPred (buildMap db) f
      = match dbFind db (entryKey f) with
        | some e => hasPricingChanged e.2 f
        | none => false := by
  unfold updPred
  rw [mapLookup_buildMap db (entryKey f) hkeys]

/-- C6: a sync run over a catalog with `M` distinct keys and a feed with `N`
distinct keys, `K` of them shared and `C` of the shared rows changed in a
tracked field, reports `insertCount = N - K`, `updateCount = C`,
`deleteCount = M - K`, and leaves the catalog's key set equal to the feed's
key set. -/
theorem updatePricingTable_reconciliation (db : Db) (nextId : Nat)
    (feed : List Pricing)
    (hkeys : (db.map (fun e => entryKey e.2)).Nodup)
    (hids : (db.map Prod.fst).Nodup)
    (hfresh : ∀ e ∈ db, e.1 < nextId)
    (hfeed : (feed.map entryKey).Nodup) :
    (updatePricingTable db nextId feed).insertCount
      = feed.length
        - feed.countP (fun f =>
            (db.map (fun e => entryKey e.2)).contains (entryKey f)) ∧
    (updatePricingTable db nextId feed).updateCount
      = feed.countP (fun f =>
          match dbFind db (entryKey f) with
          | some e => hasPricingChanged e.2 f
          | none => false) ∧
    (updatePricingTable db nextId feed).deleteCount
      = db.length
        - feed.countP (fun f =>
            (db.map (fun e => entryKey e.2)).contains (entryKey f)) ∧
    ∀ k, k ∈ (updatePricingTable db nextId feed).db.map (fun e => entryKey e.2)
      ↔ k ∈ feed.map entryKey := by
  obtain ⟨hdb, _, _, hins, hupd, hdel⟩ :=
    updatePricingTable_spec db nextId feed hkeys hids hfresh hfeed
  refine ⟨?_, ?_, ?_, ?_⟩
  · rw [hins]
    rw [List.countP_congr (fun f _ => by rw [insPred_buildMap db f hkeys])]
    exact countP_not feed _
  · rw [hupd]
    exact List.countP_congr (fun f _ => by rw [updPred_buildMap db f hkeys])
  · rw [hdel, countP_not]
    congr 1
    have h1 : db.countP (fun e => (feed.map entryKey).contains (entryKey e.2))
        = (db.map (fun e => entryKey e.2)).countP
            (fun k => (feed.map entryKey).contains k) := by
      rw [List.countP_map]
      rfl
    rw [h1, countP_mem_comm hkeys hfeed, List.countP_map]
    rfl
  · intro k
    rw [hdb, List.map_append, List.mem_append]
    constructor
    · rintro (hA | hB)
      · obtain ⟨pe, hpe, rfl⟩ := List.mem_map.mp hA
        obtain ⟨hpe2, hpred⟩ := List.mem_filter.mp hpe
        obtain ⟨e, he, rfl⟩ := List.mem_map.mp hpe2
        rw [patchOf_key db feed hkeys hids e he] at hpred ⊢
        rw [List.elem_iff] at hpred
        exact hpred
      · rw [insertedRows_keys] at hB
        obtain ⟨f, hf, rfl⟩ := List.mem_map.mp hB
        exact List.mem_map_of_mem _ (List.mem_of_mem_filter hf)
    · intro hk
      obtain ⟨f, hf, rfl⟩ := List.mem_map.mp hk
      by_cases hdbk : entryKey f ∈ db.map (fun e => entryKey e.2)
      · left
        obtain ⟨e, he, hke⟩ := List.mem_map.mp hdbk
        refine List.mem_map.mpr ⟨patchOf (buildMap db) feed e, ?_, ?_⟩
        · refine List.mem_filter.mpr ⟨List.mem_map_of_mem _ he, ?_⟩
          rw [patchOf_key db feed hkeys hids e he]
          rw [List.elem_iff]
          rw [hke]
          exact List.mem_map_of_mem entryKey hf
        · rw [patchOf_key db feed hkeys hids e he]
          exact hke
      · right
        rw [insertedRows_keys]
        have hinsf : insPred (buildMap db) f = true := by
          rw [insPred_buildMap db f hkeys]
          simp only [Bool.not_eq_true']
          rw [← Bool.not_eq_true, List.elem_iff]
          exact hdbk
        exact List.mem_map.mpr ⟨f, List.mem_filter.mpr ⟨hf, hinsf⟩, rfl⟩

theorem dbFind_of_mem {db : Db} {e : Nat × Pricing}
    (hkeys : (db.map (fun e => entryKey e.2)).Nodup) (he : e ∈ db) :
    dbFind db (entryKey e.2) = some e := by
  unfold dbFind
  induction db with
  | nil => cases he
  | cons a rest ih =>
    obtain ⟨hnotin, hnd'⟩ := List.nodup_cons.mp hkeys
    rcases List.mem_cons.mp he with rfl | he2
    · rw [List.find?_cons_of_pos _ (by simp)]
    · have hne : entryKey a.2 ≠ entryKey e.2 := by
        intro hc
        exact hnotin (List.mem_map.mpr ⟨e, he2, hc.symm⟩)
      rw [List.find?_cons_of_neg _ (by simp [hne])]
      exact ih hnd' he2

/-- Equality of all tracked fields is transitive: if `b` is unchanged from
`a` and `c` is unchanged from `b`, then `c` is unchanged from `a`. -/
theorem hasPricingChanged_trans {a b c : Pricing}
    (hab : hasPricingChanged a b = false) (hbc : hasPricingChanged b c = false) :
    hasPricingChanged a c = false := by
  unfold hasPricingChanged at *
  simp only [Bool.or_eq_false_iff, decide_eq_false_iff_not, not_not] at *
  refine ⟨⟨⟨⟨⟨⟨⟨⟨?_, ?_⟩, ?_⟩, ?_⟩, ?_⟩, ?_⟩, ?_⟩, ?_⟩, ?_⟩ <;>
    simp_all

theorem forall₂_mem_right {α β : Type} {R : α → β → Prop} {l1 : List α}
    {l2 : List β} (h : List.Forall₂ R l1 l2) {b : β} (hb : b ∈ l2) :
    ∃ a ∈ l1, R a b := by
  induction h with
  | nil => cases hb
  | cons hr _ ih =>
    rcases List.mem_cons.mp hb with rfl | hb2
    · exact ⟨_, List.mem_cons_self _ _, hr⟩
    · obtain ⟨a, ha, har⟩ := ih hb2
      exact ⟨a, List.mem_cons_of_mem _ ha, har⟩

/-- The claimed relation between a feed entry and its re-parse: same key
fields, no tracked field changed (only `lastUpdated` may differ). -/
def Reparse (f f' : Pricing) : Prop :=
  f'.modelId = f.modelId ∧ f'.providerId = f.providerId ∧
    hasPricingChanged f f' = false

theorem reparse_keys {feed feed' : List Pricing}
    (h : List.Forall₂ Reparse feed feed') :
    feed'.map entryKey = feed.map entryKey := by
  induction h with
  | nil => rfl
  | cons hr _ ih =>
    rw [List.map_cons, List.map_cons, ih]
    unfold entryKey
    rw [hr.1, hr.2.1]

/-- A run over a feed whose every entry already matches an unchanged catalog
row, with every catalog key present in the feed, writes nothing: all counts
are zero and the catalog is unchanged. -/
theorem updatePricingTable_fixed (db : Db) (nextId : Nat) (feed : List Pricing)
    (hkeys : (db.map (fun e => entryKey e.2)).Nodup)
    (hids : (db.map Prod.fst).Nodup)
    (hfresh : ∀ e ∈ db, e.1 < nextId)
    (hfeed : (feed.map entryKey).Nodup)
    (hmatch : ∀ f ∈ feed, ∃ e, dbFind db (entryKey f) = some e ∧
      hasPricingChanged e.2 f = false)
    (hcover : ∀ e ∈ db, entryKey e.2 ∈ feed.map entryKey) :
    (updatePricingTable db nextId feed).db = db ∧
    (updatePricingTable db nextId feed).insertCount = 0 ∧
    (updatePricingTable db nextId feed).updateCount = 0 ∧
    (updatePricingTable db nextId feed).deleteCount = 0 ∧
    (updatePricingTable db nextId feed).nextId = nextId := by
  obtain ⟨hdb, _, hnid, hins, hupd, hdel⟩ :=
    updatePricingTable_spec db nextId feed hkeys hids hfresh hfeed
  have hinszero : feed.countP (insPred (buildMap db)) = 0 := by
    rw [List.countP_eq_zero]
    intro f hf
    obtain ⟨e, hfind, _⟩ := hmatch f hf
    unfold insPred
    rw [mapLookup_buildMap db (entryKey f) hkeys, hfind]
    simp
  refine ⟨?_, by rw [hins, hinszero], ?_, ?_, by rw [hnid, hinszero]; exact Nat.add_zero nextId⟩
  · rw [hdb]
    have hB : insertedRows (buildMap db) nextId feed = [] := by
      have hk := insertedRows_keys (buildMap db) feed nextId
      have hfl : feed.filter (insPred (buildMap db)) = [] := by
        rw [List.filter_eq_nil_iff]
        intro f hf
        obtain ⟨e, hfind, _⟩ := hmatch f hf
        unfold insPred
        rw [mapLookup_buildMap db (entryKey f) hkeys, hfind]
        simp
      rw [hfl, List.map_nil, List.map_eq_nil_iff] at hk
      exact hk
    have hpid : ∀ e ∈ db, patchOf (buildMap db) feed e = e := by
      intro e he
      unfold patchOf
      have hn : feed.find? (patchCond (buildMap db) e) = none := by
        rw [List.find?_eq_none]
        intro f hf
        obtain ⟨ef, hfind, hch⟩ := hmatch f hf
        unfold patchCond
        rw [mapLookup_buildMap db (entryKey f) hkeys, hfind]
        simp [hch]
      rw [hn]
    rw [List.map_congr_left hpid, List.map_id', hB, List.append_nil]
    rw [List.filter_eq_self]
    intro e he
    rw [List.elem_iff]
    exact hcover e he
  · rw [hupd, List.countP_eq_zero]
    intro f hf
    obtain ⟨e, hfind, hch⟩ := hmatch f hf
    unfold updPred
    rw [mapLookup_buildMap db (entryKey f) hkeys, hfind]
    simp [hch]
  · rw [hdel, List.countP_eq_zero]
    intro e he
    have hc := hcover e he
    simp [hc]

theorem hasPricingChanged_refl (a : Pricing) : hasPricingChanged a a = false := by
  unfold hasPricingChanged
  simp

/-- After a run, the catalog again has distinct keys, distinct fresh ids,
its keys all come from the feed, and every feed entry has an unchanged
matching row. -/
theorem updatePricingTable_post (db : Db) (nextId : Nat) (feed : List Pricing)
    (hkeys : (db.map (fun e => entryKey e.2)).Nodup)
    (hids : (db.map Prod.fst).Nodup)
    (hfresh : ∀ e ∈ db, e.1 < nextId)
    (hfeed : (feed.map entryKey).Nodup) :
    ((updatePricingTable db nextId feed).db.map (fun e => entryKey e.2)).Nodup ∧
    ((updatePricingTable db nextId feed).db.map Prod.fst).Nodup ∧
    (∀ e ∈ (updatePricingTable db nextId feed).db,
      e.1 < (updatePricingTable db nextId feed).nextId) ∧
    (∀ e ∈ (updatePricingTable db nextId feed).db,
      entryKey e.2 ∈ feed.map entryKey) ∧
    (∀ f ∈ feed, ∃ e ∈ (updatePricingTable db nextId feed).db,
      entryKey e.2 = entryKey f ∧ hasPricingChanged e.2 f = false) := by
  obtain ⟨hdb, _, hnid, _, _, _⟩ :=
    updatePricingTable_spec db nextId feed hkeys hids hfresh hfeed
  have hmapkeys : (db.map (patchOf (buildMap db) feed)).map (fun e => entryKey e.2)
      = db.map (fun e => entryKey e.2) := by
    rw [List.map_map]
    exact List.map_congr_left (fun e he => patchOf_key db feed hkeys hids e he)
  have hmapids : (db.map (patchOf (buildMap db) feed)).map Prod.fst
      = db.map Prod.fst := by
    rw [List.map_map]
    exact List.map_congr_left (fun e _ => patchOf_fst (buildMap db) feed e)
  have hAkeys_sub : List.Sublist
      (((db.map (patchOf (buildMap db) feed)).filter
        (fun e => (feed.map entryKey).contains (entryKey e.2))).map
          (fun e => entryKey e.2))
      (db.map (fun e => entryKey e.2)) := by
    rw [← hmapkeys]
    exact (List.filter_sublist _).map _
  have hAids_sub : List.Sublist
      (((db.map (patchOf (buildMap db) feed)).filter
        (fun e => (feed.map entryKey).contains (entryKey e.2))).map Prod.fst)
      (db.map Prod.fst) := by
    rw [← hmapids]
    exact (List.filter_sublist _).map _
  have hBkeys := insertedRows_keys (buildMap db) feed nextId
  have hBkeys_sub : List.Sublist
      ((insertedRows (buildMap db) nextId feed).map (fun e => entryKey e.2))
      (feed.map entryKey) := by
    rw [hBkeys]
    exact (List.filter_sublist _).map _
  have hBnotdb : ∀ k, k ∈ (insertedRows (buildMap db) nextId feed).map
      (fun e => entryKey e.2) → k ∉ db.map (fun e => entryKey e.2) := by
    intro k hk
    rw [hBkeys] at hk
    obtain ⟨f, hf, rfl⟩ := List.mem_map.mp hk
    have hip : insPred (buildMap db) f = true := (List.mem_filter.mp hf).2
    rw [insPred_buildMap db f hkeys] at hip
    simp only [Bool.not_eq_true'] at hip
    intro hc
    have hc2 : (db.map (fun e => entryKey e.2)).contains (entryKey f) = true :=
      List.elem_iff.mpr hc
    rw [hip] at hc2
    exact Bool.noConfusion hc2
  refine ⟨?_, ?_, ?_, ?_, ?_⟩
  · rw [hdb, List.map_append]
    refine (hkeys.sublist hAkeys_sub).append (hfeed.sublist hBkeys_sub) ?_
    intro k hkA hkB
    exact hBnotdb k hkB (hAkeys_sub.mem hkA)
  · rw [hdb, List.map_append]
    refine (hids.sublist hAids_sub).append
      (insertedRows_ids_nodup (buildMap db) feed nextId) ?_
    intro i hiA hiB
    obtain ⟨e, he, rfl⟩ := List.mem_map.mp (hAids_sub.mem hiA)
    obtain ⟨r, hr, hre⟩ := List.mem_map.mp hiB
    have h1 := hfresh e he
    have h2 := insertedRows_fst_ge (buildMap db) feed nextId r hr
    omega
  · intro e he
    rw [hnid]
    rw [hdb] at he
    rcases List.mem_append.mp he with hA | hB
    · have hmem := hAids_sub.mem (List.mem_map_of_mem Prod.fst hA)
      obtain ⟨e0, he0, hfst⟩ := List.mem_map.mp hmem
      have := hfresh e0 he0
      omega
    · exact insertedRows_fst_lt (buildMap db) feed nextId e hB
  · intro e he
    rw [hdb] at he
    rcases List.mem_append.mp he with hA | hB
    · have hpred := (List.mem_filter.mp hA).2
      rw [List.elem_iff] at hpred
      exact hpred
    · exact hBkeys_sub.mem (List.mem_map_of_mem (fun e => entryKey e.2) hB)
  · intro f hf
    by_cases hdbk : entryKey f ∈ db.map (fun e => entryKey e.2)
    · rcases hfind : dbFind db (entryKey f) with _ | e0
      · exact absurd hdbk ((dbFind_eq_none db (entryKey f)).mp hfind)
      · obtain ⟨he0mem, he0key⟩ := dbFind_key hfind
        have hkeyeq : entryKey (patchOf (buildMap db) feed e0).2 = entryKey f := by
          rw [patchOf_key db feed hkeys hids e0 he0mem, he0key]
        refine ⟨patchOf (buildMap db) feed e0, ?_, hkeyeq, ?_⟩
        · rw [hdb]
          refine List.mem_append.mpr (Or.inl ?_)
          refine List.mem_filter.mpr ⟨List.mem_map_of_mem _ he0mem, ?_⟩
          rw [hkeyeq, List.elem_iff]
          exact List.mem_map_of_mem entryKey hf
        · unfold patchOf
          rcases hpf : feed.find? (patchCond (buildMap db) e0) with _ | g
          · have hpc := List.find?_eq_none.mp hpf f hf
            unfold patchCond at hpc
            rw [mapLookup_buildMap db (entryKey f) hkeys, hfind] at hpc
            simp only [Bool.and_eq_true, decide_eq_true_eq, not_and,
              Bool.not_eq_true] at hpc
            exact hpc trivial
          · obtain ⟨ex, hlk, hxid, _⟩ := patchCond_spec (List.find?_some hpf)
            have hgfeed := List.mem_of_find?_eq_some hpf
            rw [mapLookup_buildMap db (entryKey g) hkeys] at hlk
            obtain ⟨hexmem, hexkey⟩ := dbFind_key hlk
            have hexe0 : ex = e0 := List.inj_on_of_nodup_map hids hexmem he0mem hxid
            have hkeygf : entryKey g = entryKey f := by
              rw [← hexkey, hexe0, he0key]
            have hgf : g = f := List.inj_on_of_nodup_map hfeed hgfeed hf hkeygf
            rw [hgf]
            exact hasPricingChanged_refl f
    · have hip : insPred (buildMap db) f = true := by
        rw [insPred_buildMap db f hkeys]
        simp only [Bool.not_eq_true']
        rw [← Bool.not_eq_true, List.elem_iff]
        exact hdbk
      obtain ⟨i, hi⟩ := insertedRows_mem (buildMap db) feed nextId f hf hip
      refine ⟨(i, f), ?_, rfl, hasPricingChanged_refl f⟩
      rw [hdb]
      exact List.mem_append.mpr (Or.inr hi)

/-- C7: sync is idempotent: after a run over a feed, a second run over the
same feed with every entry re-parsed (same key fields, no tracked field
changed, only `lastUpdated` may differ) reports
`insertCount = updateCount = deleteCount = 0` and leaves the catalog
unchanged, so no insert, patch or delete is performed. -/
theorem updatePricingTable_idempotent (db : Db) (nextId : Nat)
    (feed feed' : List Pricing)
    (hkeys : (db.map (fun e => entryKey e.2)).Nodup)
    (hids : (db.map Prod.fst).Nodup)
    (hfresh : ∀ e ∈ db, e.1 < nextId)
    (hfeed : (feed.map entryKey).Nodup)
    (hre : List.Forall₂ Reparse feed feed') :
    (updatePricingTable (updatePricingTable db nextId feed).db
      (updatePricingTable db nextId feed).nextId feed').insertCount = 0 ∧
    (updatePricingTable (updatePricingTable db nextId feed).db
      (updatePricingTable db nextId feed).nextId feed').updateCount = 0 ∧
    (updatePricingTable (updatePricingTable db nextId feed).db
      (updatePricingTable db nextId feed).nextId feed').deleteCount = 0 ∧
    (updatePricingTable (updatePricingTable db nextId feed).db
      (updatePricingTable db nextId feed).nextId feed').db
      = (updatePricingTable db nextId feed).db := by
  obtain ⟨hk1, hi1, hf1, hcov1, hm1⟩ :=
    updatePricingTable_post db nextId feed hkeys hids hfresh hfeed
  have hfeed2 : (feed'.map entryKey).Nodup := by
    rw [reparse_keys hre]
    exact hfeed
  have hmatch2 : ∀ f2 ∈ feed',
      ∃ e, dbFind (updatePricingTable db nextId feed).db (entryKey f2) = some e ∧
        hasPricingChanged e.2 f2 = false := by
    intro f2 hf2
    obtain ⟨f, hf, hrf⟩ := forall₂_mem_right hre hf2
    have hkf : entryKey f2 = entryKey f := by
      unfold entryKey
      rw [hrf.1, hrf.2.1]
    obtain ⟨e, he, hek, hch⟩ := hm1 f hf
    refine ⟨e, ?_, hasPricingChanged_trans hch hrf.2.2⟩
    rw [hkf, ← hek]
    exact dbFind_of_mem hk1 he
  have hcover2 : ∀ e ∈ (updatePricingTable db nextId feed).db,
      entryKey e.2 ∈ feed'.map entryKey := by
    intro e he
    rw [reparse_keys hre]
    exact hcov1 e he
  obtain ⟨hdb2, hins2, hupd2, hdel2, _⟩ :=
    updatePricingTable_fixed (updatePricingTable db nextId feed).db
      (updatePricingTable db nextId feed).nextId feed' hk1 hi1 hf1 hfeed2
      hmatch2 hcover2
  exact ⟨hins2, hupd2, hdel2, hdb2⟩

/-- Concrete catalog row "m1:p1" for the sync witnesses. -/
def wsPA : Pricing :=
  { providerId := "p1", providerName := "ProvOne", modelId := "m1",
    modelName := "ModelOne",
    pricing := { input := 1, output := 2, reasoning := none,
                 cache_read := none, cache_write := none },
    limits := { context := 8, output := 4 }, lastUpdated := 10 }

/-- Feed entry with the key of `wsPA` but a changed input rate. -/
def wsPA2 : Pricing :=
  { providerId := "p1", providerName := "ProvOne", modelId := "m1",
    modelName := "ModelOne",
    pricing := { input := 3, output := 2, reasoning := none,
                 cache_read := none, cache_write := none },
    limits := { context := 8, output := 4 }, lastUpdated := 20 }

/-- Catalog row "m2:p1", absent from the feed. -/
def wsPB : Pricing :=
  { providerId := "p1", providerName := "ProvOne", modelId := "m2",
    modelName := "ModelTwo",
    pricing := { input := 5, output := 6, reasoning := none,
                 cache_read := none, cache_write := none },
    limits := { context := 8, output := 4 }, lastUpdated := 10 }

/-- Feed entry "m3:p1", absent from the catalog. -/
def wsPC : Pricing :=
  { providerId := "p1", providerName := "ProvOne", modelId := "m3",
    modelName := "ModelThree",
    pricing := { input := 7, output := 8, reasoning := none,
                 cache_read := none, cache_write := none },
    limits := { context := 8, output := 4 }, lastUpdated := 20 }

/-- Re-parse of `wsPA2`: only `lastUpdated` differs. -/
def wsPA3 : Pricing :=
  { providerId := "p1", providerName := "ProvOne", modelId := "m1",
    modelName := "ModelOne",
    pricing := { input := 3, output := 2, reasoning := none,
                 cache_read := none, cache_write := none },
    limits := { context := 8, output := 4 }, lastUpdated := 30 }

/-- Re-parse of `wsPC`: only `lastUpdated` differs. -/
def wsPC2 : Pricing :=
  { providerId := "p1", providerName := "ProvOne", modelId := "m3",
    modelName := "ModelThree",
    pricing := { input := 7, output := 8, reasoning := none,
                 cache_read := none, cache_write := none },
    limits := { context := 8, output := 4 }, lastUpdated := 30 }

def wsDb : Db := [(0, wsPA), (1, wsPB)]

def wsFeed : List Pricing := [wsPA2, wsPC]

def wsFeed2 : List Pricing := [wsPA3, wsPC2]

theorem updatePricingTable_reconciliation_witness :
    (updatePricingTable wsDb 2 wsFeed).insertCount
      = wsFeed.length
        - wsFeed.countP (fun f =>
            (wsDb.map (fun e => entryKey e.2)).contains (entryKey f)) ∧
    (updatePricingTable wsDb 2 wsFeed).updateCount
      = wsFeed.countP (fun f =>
          match dbFind wsDb (entryKey f) with
          | some e => hasPricingChanged e.2 f
          | none => false) ∧
    (updatePricingTable wsDb 2 wsFeed).deleteCount
      = wsDb.length
        - wsFeed.countP (fun f =>
            (wsDb.map (fun e => entryKey e.2)).contains (entryKey f)) ∧
    (entryKey wsPC ∈ (updatePricingTable wsDb 2 wsFeed).db.map
        (fun e => entryKey e.2)
      ↔ entryKey wsPC ∈ wsFeed.map entryKey) := by
  have h := updatePricingTable_reconciliation wsDb 2 wsFeed
    (by simp [wsDb, wsPA, wsPB, entryKey])
    (by simp [wsDb])
    (by simp [wsDb])
    (by simp [wsFeed, wsPA2, wsPC, entryKey])
  exact ⟨h.1, h.2.1, h.2.2.1, h.2.2.2 (entryKey wsPC)⟩

theorem updatePricingTable_idempotent_witness :
    (updatePricingTable (updatePricingTable wsDb 2 wsFeed).db
      (updatePricingTable wsDb 2 wsFeed).nextId wsFeed2).insertCount = 0 ∧
    (updatePricingTable (updatePricingTable wsDb 2 wsFeed).db
      (updatePricingTable wsDb 2 wsFeed).nextId wsFeed2).updateCount = 0 ∧
    (updatePricingTable (updatePricingTable wsDb 2 wsFeed).db
      (updatePricingTable wsDb 2 wsFeed).nextId wsFeed2).deleteCount = 0 ∧
    (updatePricingTable (updatePricingTable wsDb 2 wsFeed).db
      (updatePricingTable wsDb 2 wsFeed).nextId wsFeed2).db
      = (updatePricingTable wsDb 2 wsFeed).db := by
  refine updatePricingTable_idempotent wsDb 2 wsFeed wsFeed2
    (by simp [wsDb, wsPA, wsPB, entryKey])
    (by simp [wsDb])
    (by simp [wsDb])
    (by simp [wsFeed, wsPA2, wsPC, entryKey])
    ?_
  refine List.Forall₂.cons ?_ (List.Forall₂.cons ?_ List.Forall₂.nil)
  · exact ⟨rfl, rfl, by norm_num [hasPricingChanged, wsPA2, wsPA3]⟩
  · exact ⟨rfl, rfl, by norm_num [hasPricingChanged, wsPC, wsPC2]⟩

end NeutralCost
